import Mathlib

/-!
Verification of the vegen template compiler against its specification.

The development shallowly embeds the parts of the source relevant to the
frozen claims:

1. the generic union-find store (src/type_system/uf.rs),
2. the type and row domain plus the constraint solver (src/type_system/{types,solver}.rs),
3. the inference environment (src/type_system/environment.rs) and builtins,
4. expression dependency extraction (src/expr.rs),
5. the module loader component-reference checks (src/template/loader.rs),
6. deterministic topological sorting (src/graph.rs),
7. the attribute-type lookup (src/attribute_types.rs, src/ast_query.rs).

Rust union-find points are reference-counted cells; the embedding replaces
them by indices into an explicit store (a list of nodes), so that reference
equality of points becomes index equality, and every recursion that walks
mutable link chains is given explicit fuel.  Fallible or potentially
non-terminating walks return Option; none corresponds to fuel exhaustion or
to the unreachable branches that panic in the source.
-/

namespace Vegen

/-- A union-find node, mirroring Node in uf.rs: either root information
(rank and descriptor) or a link to a parent point. -/
inductive UFNode (T : Type) where
  | info (rank : Nat) (descriptor : T)
  | link (parent : Nat)
deriving DecidableEq, Repr

/-- The union-find store.  The node at index i is the point with id i;
Point identity in the source (Rc pointer equality) becomes index equality
because every allocation appends a fresh index. -/
abbrev UFStore (T : Type) := List (UFNode T)

/-- Embedding of find_root in uf.rs: follow links to the root, rewriting
every traversed link to point directly at the root (path compression).
Returns the root index together with the compressed store. -/
def ufFind {T : Type} : Nat → UFStore T → Nat → Option (Nat × UFStore T)
  | 0, _, _ => none
  | fuel+1, st, p =>
    match st[p]? with
    | some (.info _ _) => some (p, st)
    | some (.link q) =>
      match ufFind fuel st q with
      | some (r, st1) => some (r, st1.set p (.link r))
      | none => none
    | none => none

/-- Pure root lookup without compression, used only to state properties of
ufFind; it is not part of the source. -/
def ufRoot {T : Type} : Nat → UFStore T → Nat → Option Nat
  | 0, _, _ => none
  | fuel+1, st, p =>
    match st[p]? with
    | some (.info _ _) => some p
    | some (.link q) => ufRoot fuel st q
    | none => none

/-- Embedding of get in uf.rs: find the root, then read its descriptor. -/
def ufGet {T : Type} (fuel : Nat) (st : UFStore T) (p : Nat) :
    Option (T × UFStore T) :=
  match ufFind fuel st p with
  | some (r, st1) =>
    match st1[r]? with
    | some (.info _ d) => some (d, st1)
    | _ => none
  | none => none

/-- Embedding of set in uf.rs: find the root, then overwrite its
descriptor, keeping its rank. -/
def ufSet {T : Type} (fuel : Nat) (st : UFStore T) (p : Nat) (d : T) :
    Option (UFStore T) :=
  match ufFind fuel st p with
  | some (r, st1) =>
    match st1[r]? with
    | some (.info rk _) => some (st1.set r (.info rk d))
    | _ => none
  | none => none

/-- Rank of a root node; none on links mirrors the unreachable panic. -/
def ufRank {T : Type} (st : UFStore T) (r : Nat) : Option Nat :=
  match st[r]? with
  | some (.info rk _) => some rk
  | _ => none

/-- Final phase of union in uf.rs once parent and child roots are chosen:
link the child under the parent, bump the parent rank on an equal-rank
union, and write the descriptor at the parent. -/
def ufUnionRoots {T : Type} (fuel : Nat) (st2 : UFStore T)
    (parent child : Nat) (bump : Bool) (d : T) : Option (UFStore T) :=
  let st3 := st2.set child (.link parent)
  match bump, st3[parent]? with
  | true, some (.info rk dd) => ufSet fuel (st3.set parent (.info (rk+1) dd)) parent d
  | true, _ => none
  | false, _ => ufSet fuel st3 parent d

/-- Embedding of union in uf.rs: find both roots; if equal, just set the
descriptor; otherwise compare ranks exactly as the source does (Greater
keeps a as parent, Less keeps b, Equal keeps a and bumps its rank) and
finish with ufUnionRoots. -/
def ufUnion {T : Type} (fuel : Nat) (st : UFStore T) (a b : Nat) (d : T) :
    Option (UFStore T) :=
  match ufFind fuel st a with
  | none => none
  | some (ra, st1) =>
    match ufFind fuel st1 b with
    | none => none
    | some (rb, st2) =>
      if ra = rb then ufSet fuel st2 ra d
      else
        match ufRank st2 ra, ufRank st2 rb with
        | some rka, some rkb =>
          match compare rka rkb with
          | .gt => ufUnionRoots fuel st2 ra rb false d
          | .lt => ufUnionRoots fuel st2 rb ra false d
          | .eq => ufUnionRoots fuel st2 ra rb true d
        | _, _ => none

/-- Embedding of redundant in uf.rs: a point is redundant exactly when its
node is currently a link. -/
def ufRedundant {T : Type} (st : UFStore T) (p : Nat) : Bool :=
  match st[p]? with
  | some (.link _) => true
  | _ => false

/-- Allocation of a fresh point (Point::new with rank 0); the new id is the
current store length. -/
def ufFresh {T : Type} (st : UFStore T) (d : T) : Nat × UFStore T :=
  (st.length, st ++ [UFNode.info 0 d])

/-- Rank view of a store entry, for frame statements. -/
def ufRankView {T : Type} (st : UFStore T) (p : Nat) : Option Nat :=
  match st[p]? with
  | some (.info rk _) => some rk
  | some (.link _) => none
  | none => none

theorem ufRoot_isInfo {T : Type} :
    ∀ (fuel : Nat) (st : UFStore T) (p r : Nat),
      ufRoot fuel st p = some r → ∃ rk d, st[r]? = some (.info rk d) := by
  intro fuel
  induction fuel with
  | zero => intro st p r h; simp [ufRoot] at h
  | succ fuel ih =>
    intro st p r h
    unfold ufRoot at h
    split at h
    · cases h; exact ⟨_, _, by assumption⟩
    · exact ih st _ r h
    · cases h

theorem ufRoot_mono {T : Type} :
    ∀ (f1 f2 : Nat) (st : UFStore T) (p r : Nat), f1 ≤ f2 →
      ufRoot f1 st p = some r → ufRoot f2 st p = some r := by
  intro f1
  induction f1 with
  | zero => intro f2 st p r _ h; simp [ufRoot] at h
  | succ f1 ih =>
    intro f2 st p r hle h
    obtain ⟨f2, rfl⟩ : ∃ k, f2 = k + 1 :=
      ⟨f2 - 1, by omega⟩
    unfold ufRoot at h ⊢
    split at h
    · exact h
    · exact ih f2 st _ r (by omega) h
    · cases h

theorem ufRoot_det {T : Type} (f1 f2 : Nat) (st : UFStore T) (p r1 r2 : Nat)
    (h1 : ufRoot f1 st p = some r1) (h2 : ufRoot f2 st p = some r2) :
    r1 = r2 := by
  have m1 := ufRoot_mono f1 (f1 + f2) st p r1 (by omega) h1
  have m2 := ufRoot_mono f2 (f1 + f2) st p r2 (by omega) h2
  rw [m1] at m2
  exact Option.some.inj m2

theorem ufRoot_of_info {T : Type} (fuel : Nat) (st : UFStore T) (r rk : Nat)
    (d : T) (h : st[r]? = some (.info rk d)) :
    ufRoot (fuel + 1) st r = some r := by
  unfold ufRoot
  rw [h]

/-- Master specification of ufFind: the result is the chain root of p, the
store keeps its length, and every entry is either untouched or was a link
on a chain with root r and is rewritten to point directly at r. -/
theorem ufFind_spec {T : Type} :
    ∀ (fuel : Nat) (st : UFStore T) (p r : Nat) (st1 : UFStore T),
      ufFind fuel st p = some (r, st1) →
      ufRoot fuel st p = some r ∧
      st1.length = st.length ∧
      ∀ q, st1[q]? = st[q]? ∨
        ((∃ qq, st[q]? = some (.link qq)) ∧ st1[q]? = some (.link r) ∧
          ∃ f0, ufRoot f0 st q = some r) := by
  intro fuel
  induction fuel with
  | zero => intro st p r st1 h; simp [ufFind] at h
  | succ fuel ih =>
    intro st p r st1 h
    unfold ufFind at h
    split at h
    next rk d hp =>
      cases h
      refine ⟨by unfold ufRoot; rw [hp], rfl, fun q => Or.inl rfl⟩
    next q0 hp =>
      cases hfq : ufFind fuel st q0 with
      | none => rw [hfq] at h; cases h
      | some res =>
        obtain ⟨r0, st2⟩ := res
        rw [hfq] at h
        cases h
        obtain ⟨hroot, hlen, hframe⟩ := ih st q0 r st2 hfq
        have hplt : p < st.length := by
          by_contra hge
          rw [List.getElem?_eq_none (by omega)] at hp
          cases hp
        have hrootp : ufRoot (fuel + 1) st p = some r := by
          unfold ufRoot; rw [hp]; exact hroot
        refine ⟨hrootp, by rw [List.length_set]; exact hlen, fun q => ?_⟩
        by_cases hq : q = p
        · subst hq
          right
          refine ⟨⟨q0, hp⟩, ?_, ⟨fuel + 1, hrootp⟩⟩
          rw [List.getElem?_set_eq_of_lt]
          omega
        · rw [List.getElem?_set_ne (fun h => hq h.symm)]
          exact hframe q
    next hp => cases h

theorem ufFind_root_entry {T : Type} (fuel : Nat) (st : UFStore T)
    (p r : Nat) (st1 : UFStore T) (h : ufFind fuel st p = some (r, st1)) :
    ∃ rk d, st[r]? = some (.info rk d) ∧ st1[r]? = some (.info rk d) := by
  obtain ⟨hroot, _, hframe⟩ := ufFind_spec fuel st p r st1 h
  obtain ⟨rk, d, hinfo⟩ := ufRoot_isInfo fuel st p r hroot
  refine ⟨rk, d, hinfo, ?_⟩
  rcases hframe r with heq | ⟨⟨qq, hlink⟩, _, _⟩
  · rw [heq, hinfo]
  · rw [hlink] at hinfo; cases hinfo

theorem ufFind_direct {T : Type} (fuel : Nat) (st : UFStore T)
    (p r : Nat) (st1 : UFStore T) (h : ufFind fuel st p = some (r, st1)) :
    (p = r ∧ st1 = st) ∨ st1[p]? = some (.link r) := by
  match fuel with
  | 0 => simp [ufFind] at h
  | fuel+1 =>
    unfold ufFind at h
    split at h
    next rk d hp => cases h; exact Or.inl ⟨rfl, rfl⟩
    next q0 hp =>
      cases hfq : ufFind fuel st q0 with
      | none => rw [hfq] at h; cases h
      | some res =>
        obtain ⟨r0, st2⟩ := res
        rw [hfq] at h
        cases h
        right
        obtain ⟨_, hlen, _⟩ := ufFind_spec fuel st q0 _ _ hfq
        have hplt : p < st.length := by
          by_contra hge
          rw [List.getElem?_eq_none (by omega)] at hp
          cases hp
        rw [List.getElem?_set_eq_of_lt]
        omega
    next hp => cases h

/-- Path compression never changes the root of any point. -/
theorem ufFind_preserves_root {T : Type} (fuel : Nat) (st : UFStore T)
    (p r : Nat) (st1 : UFStore T) (h : ufFind fuel st p = some (r, st1)) :
    ∀ (F q rt : Nat), ufRoot F st q = some rt → ufRoot F st1 q = some rt := by
  obtain ⟨hroot, hlen, hframe⟩ := ufFind_spec fuel st p r st1 h
  intro F
  induction F with
  | zero => intro q rt hq; simp [ufRoot] at hq
  | succ F ih =>
    intro q rt hq
    unfold ufRoot at hq
    split at hq
    next rk d hqe =>
      cases hq
      have : st1[q]? = some (UFNode.info rk d) := by
        rcases hframe q with heq | ⟨⟨qq, hlink⟩, _, _⟩
        · rw [heq, hqe]
        · rw [hlink] at hqe; cases hqe
      unfold ufRoot; rw [this]
    next q0 hqe =>
      rcases hframe q with heq | ⟨_, hlinkr, f0, hrootq⟩
      · unfold ufRoot
        rw [heq, hqe]
        exact ih q0 rt hq
      · have hrtr : rt = r := by
          have h1 : ufRoot (F + 1) st q = some rt := by
            unfold ufRoot; rw [hqe]; exact hq
          exact ufRoot_det (F + 1) f0 st q rt r h1 hrootq
        subst hrtr
        match F, hq with
        | F0+1, hq =>
          obtain ⟨rk2, d2, hr1, hr2⟩ := ufFind_root_entry fuel st p rt st1 h
          unfold ufRoot
          rw [hlinkr]
          unfold ufRoot
          rw [hr2]
    next hqe => cases hq

/-- A point whose chain reaches root rt in at most two link steps; after a
union both arguments are in this position relative to the surviving root. -/
def nearRoot {T : Type} (st : UFStore T) (p rt : Nat) : Prop :=
  p = rt ∨ st[p]? = some (UFNode.link rt) ∨
    ∃ m, st[p]? = some (UFNode.link m) ∧ st[m]? = some (UFNode.link rt)

theorem ufGet_of_nearRoot {T : Type} (st : UFStore T) (p rt rk : Nat) (d : T)
    (hnear : nearRoot st p rt) (hroot : st[rt]? = some (UFNode.info rk d)) :
    ∃ st2 : UFStore T, ufGet 3 st p = some (d, st2) ∧
      st2[rt]? = some (UFNode.info rk d) ∧
      ∀ q : Nat, st2[q]? = st[q]? ∨ st2[q]? = some (UFNode.link rt) := by
  rcases hnear with rfl | hlink | ⟨m, hlink, hlink2⟩
  · refine ⟨st, ?_, hroot, fun q => Or.inl rfl⟩
    simp only [ufGet, ufFind, hroot]
  · have hpne : p ≠ rt := by
      intro he; rw [he, hroot] at hlink; cases hlink
    have hplt : p < st.length := by
      by_contra hge
      rw [List.getElem?_eq_none (by omega)] at hlink
      cases hlink
    refine ⟨st.set p (UFNode.link rt), ?_, ?_, fun q => ?_⟩
    · simp only [ufGet, ufFind, hlink, hroot, List.getElem?_set_ne hpne]
    · rw [List.getElem?_set_ne hpne]; exact hroot
    · by_cases hq : q = p
      · subst hq
        exact Or.inr (by rw [List.getElem?_set_eq_of_lt _ hplt])
      · exact Or.inl (List.getElem?_set_ne (fun he => hq he.symm))
  · have hmne : m ≠ rt := by
      intro he; rw [he, hroot] at hlink2; cases hlink2
    have hpne : p ≠ rt := by
      intro he; rw [he, hroot] at hlink; cases hlink
    have hpm : p ≠ m := by
      intro he
      rw [he, hlink2] at hlink
      cases hlink
      exact hmne rfl
    have hplt : p < st.length := by
      by_contra hge
      rw [List.getElem?_eq_none (by omega)] at hlink
      cases hlink
    have hmlt : m < st.length := by
      by_contra hge
      rw [List.getElem?_eq_none (by omega)] at hlink2
      cases hlink2
    refine ⟨(st.set m (UFNode.link rt)).set p (UFNode.link rt), ?_, ?_, fun q => ?_⟩
    · simp only [ufGet, ufFind, hlink, hlink2, hroot, List.getElem?_set_ne hpne,
        List.getElem?_set_ne hmne]
    · rw [List.getElem?_set_ne hpne, List.getElem?_set_ne hmne]; exact hroot
    · by_cases hq : q = p
      · subst hq
        refine Or.inr ?_
        rw [List.getElem?_set_eq_of_lt]
        rw [List.length_set]; omega
      · rw [List.getElem?_set_ne (fun he => hq he.symm)]
        by_cases hq2 : q = m
        · subst hq2
          exact Or.inr (by rw [List.getElem?_set_eq_of_lt _ hmlt])
        · exact Or.inl (List.getElem?_set_ne (fun he => hq2 he.symm))

theorem ufSet_of_nearRoot {T : Type} (st : UFStore T) (p rt rk : Nat) (d d2 : T)
    (hnear : nearRoot st p rt) (hroot : st[rt]? = some (UFNode.info rk d)) :
    ∃ st2 : UFStore T, ufSet 3 st p d2 = some st2 ∧
      st2[rt]? = some (UFNode.info rk d2) ∧
      ∀ q : Nat, q ≠ rt → (st2[q]? = st[q]? ∨ st2[q]? = some (UFNode.link rt)) := by
  have hrtlt : rt < st.length := by
    by_contra hge
    rw [List.getElem?_eq_none (by omega)] at hroot
    cases hroot
  rcases hnear with rfl | hlink | ⟨m, hlink, hlink2⟩
  · refine ⟨st.set p (UFNode.info rk d2), ?_, ?_, fun q hq => ?_⟩
    · simp only [ufSet, ufFind, hroot]
    · rw [List.getElem?_set_eq_of_lt _ hrtlt]
    · exact Or.inl (List.getElem?_set_ne (fun he => hq he.symm))
  · have hpne : p ≠ rt := by
      intro he; rw [he, hroot] at hlink; cases hlink
    have hplt : p < st.length := by
      by_contra hge
      rw [List.getElem?_eq_none (by omega)] at hlink
      cases hlink
    refine ⟨(st.set p (UFNode.link rt)).set rt (UFNode.info rk d2), ?_, ?_, fun q hq => ?_⟩
    · simp only [ufSet, ufFind, hlink, hroot, List.getElem?_set_ne hpne]
    · rw [List.getElem?_set_eq_of_lt]
      rw [List.length_set]; omega
    · rw [List.getElem?_set_ne (fun he => hq he.symm)]
      by_cases hqp : q = p
      · subst hqp
        exact Or.inr (by rw [List.getElem?_set_eq_of_lt _ hplt])
      · exact Or.inl (List.getElem?_set_ne (fun he => hqp he.symm))
  · have hmne : m ≠ rt := by
      intro he; rw [he, hroot] at hlink2; cases hlink2
    have hpne : p ≠ rt := by
      intro he; rw [he, hroot] at hlink; cases hlink
    have hpm : p ≠ m := by
      intro he
      rw [he, hlink2] at hlink
      cases hlink
      exact hmne rfl
    have hplt : p < st.length := by
      by_contra hge
      rw [List.getElem?_eq_none (by omega)] at hlink
      cases hlink
    have hmlt : m < st.length := by
      by_contra hge
      rw [List.getElem?_eq_none (by omega)] at hlink2
      cases hlink2
    refine ⟨((st.set m (UFNode.link rt)).set p (UFNode.link rt)).set rt (UFNode.info rk d2),
      ?_, ?_, fun q hq => ?_⟩
    · simp only [ufSet, ufFind, hlink, hlink2, hroot, List.getElem?_set_ne hpne,
        List.getElem?_set_ne hmne]
    · rw [List.getElem?_set_eq_of_lt]
      simp only [List.length_set]; omega
    · rw [List.getElem?_set_ne (fun he => hq he.symm)]
      by_cases hqp : q = p
      · subst hqp
        refine Or.inr ?_
        rw [List.getElem?_set_eq_of_lt]
        rw [List.length_set]; omega
      · rw [List.getElem?_set_ne (fun he => hqp he.symm)]
        by_cases hqm : q = m
        · subst hqm
          exact Or.inr (by rw [List.getElem?_set_eq_of_lt _ hmlt])
        · exact Or.inl (List.getElem?_set_ne (fun he => hqm he.symm))

theorem ufFind_pos {T : Type} {fuel : Nat} {st : UFStore T} {p : Nat}
    {x : Nat × UFStore T} (h : ufFind fuel st p = some x) : ∃ m, fuel = m + 1 := by
  cases fuel with
  | zero => simp [ufFind] at h
  | succ m => exact ⟨m, rfl⟩

theorem ufFind_info_eq {T : Type} {st : UFStore T} {p rk : Nat} {d : T}
    (h : st[p]? = some (UFNode.info rk d)) (fuel : Nat) :
    ufFind (fuel + 1) st p = some (p, st) := by
  unfold ufFind; rw [h]

theorem ufSet_of_info {T : Type} {st : UFStore T} {p rk : Nat} {dd : T}
    (h : st[p]? = some (UFNode.info rk dd)) (fuel : Nat) (d : T) :
    ufSet (fuel + 1) st p d = some (st.set p (UFNode.info rk d)) := by
  simp only [ufSet, ufFind, h]

theorem getElem?_isSome_lt {T : Type} {st : UFStore T} {p : Nat}
    {n : UFNode T} (h : st[p]? = some n) : p < st.length := by
  by_contra hge
  rw [List.getElem?_eq_none (by omega)] at h
  cases h

/-- Behaviour of the final union phase when both chosen roots are info
nodes: the child becomes a direct link to the parent, the parent holds the
new descriptor, and all other entries are untouched. -/
theorem ufUnionRoots_spec {T : Type} (fuel : Nat) (st2 : UFStore T)
    (parent child rkp rkc : Nat) (ddp ddc : T) (bump : Bool) (d : T)
    (hne : parent ≠ child)
    (hp : st2[parent]? = some (UFNode.info rkp ddp))
    (hc : st2[child]? = some (UFNode.info rkc ddc)) :
    ∃ stu rk5, ufUnionRoots (fuel + 1) st2 parent child bump d = some stu ∧
      stu[parent]? = some (UFNode.info rk5 d) ∧
      stu[child]? = some (UFNode.link parent) ∧
      ∀ q : Nat, q ≠ parent → q ≠ child → stu[q]? = st2[q]? := by
  have hplt : parent < st2.length := getElem?_isSome_lt hp
  have hclt : child < st2.length := getElem?_isSome_lt hc
  have h3p : (st2.set child (UFNode.link parent))[parent]? =
      some (UFNode.info rkp ddp) := by
    rw [List.getElem?_set_ne hne.symm]; exact hp
  have h3c : (st2.set child (UFNode.link parent))[child]? =
      some (UFNode.link parent) := by
    rw [List.getElem?_set_eq_of_lt _ hclt]
  cases bump with
  | false =>
    refine ⟨(st2.set child (UFNode.link parent)).set parent
        (UFNode.info rkp d), rkp, ?_, ?_, ?_, fun q hq1 hq2 => ?_⟩
    · simp only [ufUnionRoots]
      exact ufSet_of_info h3p fuel d
    · rw [List.getElem?_set_eq_of_lt]
      rw [List.length_set]; omega
    · rw [List.getElem?_set_ne hne]; exact h3c
    · rw [List.getElem?_set_ne (fun he => hq1 he.symm),
        List.getElem?_set_ne (fun he => hq2 he.symm)]
  | true =>
    have h4p : ((st2.set child (UFNode.link parent)).set parent
        (UFNode.info (rkp+1) ddp))[parent]? =
        some (UFNode.info (rkp+1) ddp) := by
      rw [List.getElem?_set_eq_of_lt]
      rw [List.length_set]; omega
    refine ⟨((st2.set child (UFNode.link parent)).set parent
        (UFNode.info (rkp+1) ddp)).set parent (UFNode.info (rkp+1) d),
        rkp+1, ?_, ?_, ?_, fun q hq1 hq2 => ?_⟩
    · simp only [ufUnionRoots, h3p]
      exact ufSet_of_info h4p fuel d
    · rw [List.getElem?_set_eq_of_lt]
      simp only [List.length_set]; omega
    · rw [List.getElem?_set_ne hne, List.getElem?_set_ne hne]; exact h3c
    · rw [List.getElem?_set_ne (fun he => hq1 he.symm),
        List.getElem?_set_ne (fun he => hq1 he.symm),
        List.getElem?_set_ne (fun he => hq2 he.symm)]

/-- After any successful union, there is a surviving root holding the new
descriptor, and both arguments reach it in at most two link steps. -/
theorem ufUnion_shape {T : Type} (fuel : Nat) (st : UFStore T) (a b : Nat)
    (d : T) (stu : UFStore T) (h : ufUnion fuel st a b d = some stu) :
    ∃ rt rk, stu[rt]? = some (UFNode.info rk d) ∧
      nearRoot stu a rt ∧ nearRoot stu b rt := by
  unfold ufUnion at h
  cases hfa : ufFind fuel st a with
  | none => rw [hfa] at h; cases h
  | some resa =>
    obtain ⟨ra, st1⟩ := resa
    simp only [hfa] at h
    cases hfb : ufFind fuel st1 b with
    | none => rw [hfb] at h; cases h
    | some resb =>
      obtain ⟨rb, st2⟩ := resb
      simp only [hfb] at h
      obtain ⟨m, rfl⟩ := ufFind_pos hfa
      obtain ⟨rka0, dda, h1ra, h1ra'⟩ := ufFind_root_entry _ st a ra st1 hfa
      obtain ⟨rkb0, ddb, h2rb0, h2rb⟩ := ufFind_root_entry _ st1 b rb st2 hfb
      obtain ⟨_, _, hframe2⟩ := ufFind_spec _ st1 b rb st2 hfb
      have h2ra : st2[ra]? = some (UFNode.info rka0 dda) := by
        rcases hframe2 ra with heq | ⟨⟨qq, hlk⟩, _, _⟩
        · rw [heq]; exact h1ra'
        · rw [hlk] at h1ra'; cases h1ra'
      have hda := ufFind_direct _ st a ra st1 hfa
      have hdb := ufFind_direct _ st1 b rb st2 hfb
      -- the entry of a in st2: either a is the root ra, or a is a direct
      -- link to ra or was rewritten to a direct link to rb
      have hae : a = ra ∨ st2[a]? = some (UFNode.link ra) ∨
          st2[a]? = some (UFNode.link rb) := by
        rcases hda with ⟨rfl, rfl⟩ | hlka
        · exact Or.inl rfl
        · rcases hframe2 a with heq | ⟨_, hlk, _⟩
          · exact Or.inr (Or.inl (by rw [heq]; exact hlka))
          · exact Or.inr (Or.inr hlk)
      have hbe : b = rb ∨ st2[b]? = some (UFNode.link rb) := by
        rcases hdb with ⟨rfl, rfl⟩ | hlkb
        · exact Or.inl rfl
        · exact Or.inr hlkb
      by_cases hrr : ra = rb
      · subst hrr
        rw [if_pos rfl] at h
        rw [ufSet_of_info h2ra m d] at h
        cases h
        have hralt : ra < st2.length := getElem?_isSome_lt h2ra
        refine ⟨ra, rka0, by rw [List.getElem?_set_eq_of_lt _ hralt], ?_, ?_⟩
        · rcases hae with rfl | hlka | hlka
          · exact Or.inl rfl
          all_goals
            refine Or.inr (Or.inl ?_)
            have : a ≠ ra := by
              intro he; rw [he, h2ra] at hlka; cases hlka
            rw [List.getElem?_set_ne (fun he => this he.symm)]
            exact hlka
        · rcases hbe with rfl | hlkb
          · exact Or.inl rfl
          · refine Or.inr (Or.inl ?_)
            have : b ≠ ra := by
              intro he; rw [he, h2ra] at hlkb; cases hlkb
            rw [List.getElem?_set_ne (fun he => this he.symm)]
            exact hlkb
      · rw [if_neg hrr] at h
        have hranka : ufRank st2 ra = some rka0 := by
          unfold ufRank; rw [h2ra]
        have hrankb : ufRank st2 rb = some rkb0 := by
          unfold ufRank; rw [h2rb]
        simp only [hranka, hrankb] at h
        -- in every comparison branch the parent and child are the two
        -- distinct roots, so one uniform argument applies
        have main : ∀ (parent child : Nat) (bump : Bool),
            (parent = ra ∧ child = rb) ∨ (parent = rb ∧ child = ra) →
            ufUnionRoots (m + 1) st2 parent child bump d = some stu →
            ∃ rt rk, stu[rt]? = some (UFNode.info rk d) ∧
              nearRoot stu a rt ∧ nearRoot stu b rt := by
          intro parent child bump hpc hur
          have hpcne : parent ≠ child := by
            rcases hpc with ⟨rfl, rfl⟩ | ⟨rfl, rfl⟩
            · exact hrr
            · exact fun he => hrr he.symm
          have hpinfo : ∃ rkp ddp, st2[parent]? = some (UFNode.info rkp ddp) := by
            rcases hpc with ⟨rfl, _⟩ | ⟨rfl, _⟩
            · exact ⟨rka0, dda, h2ra⟩
            · exact ⟨rkb0, ddb, h2rb⟩
          have hcinfo : ∃ rkc ddc, st2[child]? = some (UFNode.info rkc ddc) := by
            rcases hpc with ⟨_, rfl⟩ | ⟨_, rfl⟩
            · exact ⟨rkb0, ddb, h2rb⟩
            · exact ⟨rka0, dda, h2ra⟩
          obtain ⟨rkp, ddp, hp2⟩ := hpinfo
          obtain ⟨rkc, ddc, hc2⟩ := hcinfo
          obtain ⟨stu2, rk5, hur2, hup, huc, huframe⟩ :=
            ufUnionRoots_spec m st2 parent child rkp rkc ddp ddc bump d
              hpcne hp2 hc2
          rw [hur2] at hur
          have hstu2 : stu = stu2 := (Option.some.inj hur).symm
          subst hstu2
          refine ⟨parent, rk5, hup, ?_, ?_⟩
          · -- a reaches the parent in at most two steps
            rcases hae with rfl | hlka | hlka
            · rcases hpc with ⟨rfl, rfl⟩ | ⟨rfl, rfl⟩
              · exact Or.inl rfl
              · exact Or.inr (Or.inl huc)
            all_goals {
              have hane : a ≠ parent := by
                intro he; rw [he, hp2] at hlka; cases hlka
              have hane2 : a ≠ child := by
                intro he; rw [he, hc2] at hlka; cases hlka
              have hua : stu[a]? = st2[a]? := huframe a hane hane2
              rcases hpc with ⟨rfl, rfl⟩ | ⟨rfl, rfl⟩
              · first
                | exact Or.inr (Or.inl (by rw [hua]; exact hlka))
                | exact Or.inr (Or.inr ⟨_, by rw [hua]; exact hlka, huc⟩)
              · first
                | exact Or.inr (Or.inl (by rw [hua]; exact hlka))
                | exact Or.inr (Or.inr ⟨_, by rw [hua]; exact hlka, huc⟩)
            }
          · rcases hbe with rfl | hlkb
            · rcases hpc with ⟨rfl, rfl⟩ | ⟨rfl, rfl⟩
              · exact Or.inr (Or.inl huc)
              · exact Or.inl rfl
            · have hbne : b ≠ parent := by
                intro he; rw [he, hp2] at hlkb; cases hlkb
              have hbne2 : b ≠ child := by
                intro he; rw [he, hc2] at hlkb; cases hlkb
              have hub : stu[b]? = st2[b]? := huframe b hbne hbne2
              rcases hpc with ⟨rfl, rfl⟩ | ⟨rfl, rfl⟩
              · exact Or.inr (Or.inr ⟨_, by rw [hub]; exact hlkb, huc⟩)
              · exact Or.inr (Or.inl (by rw [hub]; exact hlkb))
        cases hcmp : compare rka0 rkb0 with
        | gt => rw [hcmp] at h; exact main ra rb false (Or.inl ⟨rfl, rfl⟩) h
        | lt => rw [hcmp] at h; exact main rb ra false (Or.inr ⟨rfl, rfl⟩) h
        | eq => rw [hcmp] at h; exact main ra rb true (Or.inl ⟨rfl, rfl⟩) h

theorem nearRoot_preserved {T : Type} (st st2 : UFStore T) (b rt : Nat)
    (hframe : ∀ q, q ≠ rt → (st2[q]? = st[q]? ∨ st2[q]? = some (UFNode.link rt)))
    (hnear : nearRoot st b rt) : nearRoot st2 b rt := by
  rcases hnear with rfl | hlink | ⟨m, hlink, hlink2⟩
  · exact Or.inl rfl
  · by_cases hb : b = rt
    · exact Or.inl hb
    · rcases hframe b hb with heq | heq
      · exact Or.inr (Or.inl (by rw [heq, hlink]))
      · exact Or.inr (Or.inl heq)
  · by_cases hb : b = rt
    · exact Or.inl hb
    · rcases hframe b hb with heq | heq
      · rw [hlink] at heq
        by_cases hm : m = rt
        · exact Or.inr (Or.inl (by rw [heq, hm]))
        · rcases hframe m hm with heq2 | heq2
          · exact Or.inr (Or.inr ⟨m, heq, by rw [heq2, hlink2]⟩)
          · exact Or.inr (Or.inr ⟨m, heq, heq2⟩)
      · exact Or.inr (Or.inl heq)

theorem ufUnion_get_set_get {T : Type} (fuel : Nat) (st : UFStore T)
    (a b : Nat) (d d2 : T) (stu : UFStore T)
    (h : ufUnion fuel st a b d = some stu) :
    ∃ stA stB stC stD : UFStore T,
      ufGet 3 stu a = some (d, stA) ∧
      ufGet 3 stA b = some (d, stB) ∧
      ufSet 3 stB a d2 = some stC ∧
      ufGet 3 stC b = some (d2, stD) := by
  obtain ⟨rt, rk, hroot, hna, hnb⟩ := ufUnion_shape fuel st a b d stu h
  obtain ⟨stA, hga, hrootA, hframeA⟩ := ufGet_of_nearRoot stu a rt rk d hna hroot
  have hnaA : nearRoot stA a rt :=
    nearRoot_preserved stu stA a rt (fun q _ => hframeA q) hna
  have hnbA : nearRoot stA b rt :=
    nearRoot_preserved stu stA b rt (fun q _ => hframeA q) hnb
  obtain ⟨stB, hgb, hrootB, hframeB⟩ := ufGet_of_nearRoot stA b rt rk d hnbA hrootA
  have hnaB : nearRoot stB a rt :=
    nearRoot_preserved stA stB a rt (fun q _ => hframeB q) hnaA
  have hnbB : nearRoot stB b rt :=
    nearRoot_preserved stA stB b rt (fun q _ => hframeB q) hnbA
  obtain ⟨stC, hsa, hrootC, hframeC⟩ := ufSet_of_nearRoot stB a rt rk d d2 hnaB hrootB
  have hnbC : nearRoot stC b rt := nearRoot_preserved stB stC b rt hframeC hnbB
  obtain ⟨stD, hgb2, _, _⟩ := ufGet_of_nearRoot stC b rt rk d2 hnbC hrootC
  exact ⟨stA, stB, stC, stD, hga, hgb, hsa, hgb2⟩

/-- Path compression preserves both the link status and the rank of every
entry, since it only rewrites links to links. -/
theorem ufFind_frame_views {T : Type} (fuel : Nat) (st : UFStore T)
    (p r : Nat) (st1 : UFStore T) (h : ufFind fuel st p = some (r, st1)) :
    ∀ q : Nat, ufRedundant st1 q = ufRedundant st q ∧
      ufRankView st1 q = ufRankView st q := by
  obtain ⟨_, _, hframe⟩ := ufFind_spec fuel st p r st1 h
  intro q
  rcases hframe q with heq | ⟨⟨qq, hlk⟩, hlk2, _⟩
  · unfold ufRedundant ufRankView
    rw [heq]
    exact ⟨rfl, rfl⟩
  · unfold ufRedundant ufRankView
    rw [hlk, hlk2]
    exact ⟨rfl, rfl⟩

/-- C4: after union(a, b, d), get(a) and get(b) both return d; a subsequent
set(a, d2) is observed through get(b); redundant is true exactly on link
nodes; and a find through an arbitrary chain returns the chain root,
rewrites the start to point directly at the root, and get returns the root
descriptor unchanged, also on a second read. -/
theorem claim_c4_union_find_store {T : Type} :
    (∀ (fuel : Nat) (st : UFStore T) (a b : Nat) (d d2 : T) (stu : UFStore T),
      ufUnion fuel st a b d = some stu →
      ∃ stA stB stC stD : UFStore T,
        ufGet 3 stu a = some (d, stA) ∧
        ufGet 3 stA b = some (d, stB) ∧
        ufSet 3 stB a d2 = some stC ∧
        ufGet 3 stC b = some (d2, stD)) ∧
    (∀ (st : UFStore T) (p : Nat),
      ufRedundant st p = true ↔ ∃ q, st[p]? = some (UFNode.link q)) ∧
    (∀ (fuel : Nat) (st : UFStore T) (p r : Nat) (st1 : UFStore T),
      ufFind fuel st p = some (r, st1) →
      ufRoot fuel st p = some r ∧
      (p = r ∨ st1[p]? = some (UFNode.link r)) ∧
      ∃ rk dsc, st[r]? = some (UFNode.info rk dsc) ∧
        ufGet fuel st p = some (dsc, st1) ∧
        (∀ (F q rt : Nat), ufRoot F st q = some rt → ufRoot F st1 q = some rt) ∧
        ∃ st2 : UFStore T, ufGet 2 st1 p = some (dsc, st2)) := by
  refine ⟨?_, ?_, ?_⟩
  · intro fuel st a b d d2 stu h
    exact ufUnion_get_set_get fuel st a b d d2 stu h
  · intro st p
    constructor
    · intro h
      unfold ufRedundant at h
      split at h
      · next q hq => exact ⟨q, hq⟩
      · cases h
    · rintro ⟨q, hq⟩
      unfold ufRedundant
      rw [hq]
  · intro fuel st p r st1 h
    obtain ⟨hroot, _, _⟩ := ufFind_spec fuel st p r st1 h
    obtain ⟨rk, dsc, hinfo, hinfo1⟩ := ufFind_root_entry fuel st p r st1 h
    have hdir := ufFind_direct fuel st p r st1 h
    refine ⟨hroot, ?_, rk, dsc, hinfo, ?_, ufFind_preserves_root fuel st p r st1 h, ?_⟩
    · rcases hdir with ⟨he, _⟩ | hlk
      · exact Or.inl he
      · exact Or.inr hlk
    · simp only [ufGet, h, hinfo1]
    · rcases hdir with ⟨rfl, rfl⟩ | hlk
      · exact ⟨st1, by simp only [ufGet, ufFind, hinfo1]⟩
      · have hpr : p ≠ r := by
          intro he; rw [he, hinfo1] at hlk; cases hlk
        refine ⟨st1.set p (UFNode.link r), ?_⟩
        simp only [ufGet, ufFind, hlk, hinfo1, List.getElem?_set_ne hpr]

/-- Concrete run of the C4 theorem: union two fresh points, read both,
write through a, read through b, and compress a two-node chain. -/
theorem claim_c4_union_find_store_witness :
    (∃ stA stB stC stD : UFStore String,
      ufGet 3 [UFNode.info 1 "d", UFNode.link 0] 0 = some ("d", stA) ∧
      ufGet 3 stA 1 = some ("d", stB) ∧
      ufSet 3 stB 0 "e" = some stC ∧
      ufGet 3 stC 1 = some ("e", stD)) ∧
    (ufRoot 3 [UFNode.link 1, UFNode.info 0 "z"] 0 = some 1 ∧
      (0 = 1 ∨ [UFNode.link 1, UFNode.info 0 "z"][0]? = some (UFNode.link 1)) ∧
      ∃ rk dsc, [UFNode.link 1, UFNode.info 0 "z"][1]? =
          some (UFNode.info rk dsc) ∧
        ufGet 3 [UFNode.link 1, UFNode.info 0 "z"] 0 =
          some (dsc, [UFNode.link 1, UFNode.info 0 "z"]) ∧
        (∀ (F q rt : Nat),
          ufRoot F [UFNode.link 1, UFNode.info 0 "z"] q = some rt →
          ufRoot F [UFNode.link 1, UFNode.info 0 "z"] q = some rt) ∧
        ∃ st2 : UFStore String,
          ufGet 2 [UFNode.link 1, UFNode.info 0 "z"] 0 = some (dsc, st2)) :=
  ⟨claim_c4_union_find_store.1 5 [UFNode.info 0 "x", UFNode.info 0 "y"]
      0 1 "d" "e" [UFNode.info 1 "d", UFNode.link 0] (by decide),
   (claim_c4_union_find_store.2.2 3 [UFNode.link 1, UFNode.info 0 "z"]
      0 1 [UFNode.link 1, UFNode.info 0 "z"] (by decide))⟩

/-- C9: when a and b are already in the same class, union(a, b, d) only
overwrites the class root descriptor: link status and rank of every point
are unchanged, and both get(a) and get(b) subsequently return d. -/
theorem claim_c9_union_same_class {T : Type} (fuel : Nat) (st : UFStore T)
    (a b ra rb : Nat) (st1 st2 : UFStore T) (d : T)
    (hfa : ufFind fuel st a = some (ra, st1))
    (hfb : ufFind fuel st1 b = some (rb, st2))
    (hsame : ra = rb) :
    ∃ (stu : UFStore T) (rk : Nat) (d0 : T),
      ufUnion fuel st a b d = some stu ∧
      st[ra]? = some (UFNode.info rk d0) ∧
      stu[ra]? = some (UFNode.info rk d) ∧
      (∀ p : Nat, ufRedundant stu p = ufRedundant st p) ∧
      (∀ p : Nat, ufRankView stu p = ufRankView st p) ∧
      ∃ stA stB : UFStore T,
        ufGet 3 stu a = some (d, stA) ∧ ufGet 3 stA b = some (d, stB) := by
  subst hsame
  obtain ⟨m, rfl⟩ := ufFind_pos hfa
  obtain ⟨rka, dda, h1ra, h1ra'⟩ := ufFind_root_entry _ st a ra st1 hfa
  obtain ⟨_, _, hframe2⟩ := ufFind_spec _ st1 b ra st2 hfb
  have h2ra : st2[ra]? = some (UFNode.info rka dda) := by
    rcases hframe2 ra with heq | ⟨⟨qq, hlk⟩, _, _⟩
    · rw [heq]; exact h1ra'
    · rw [hlk] at h1ra'; cases h1ra'
  have hu : ufUnion (m+1) st a b d = some (st2.set ra (UFNode.info rka d)) := by
    unfold ufUnion
    simp only [hfa, hfb, if_pos rfl]
    exact ufSet_of_info h2ra m d
  have hralt : ra < st2.length := getElem?_isSome_lt h2ra
  refine ⟨st2.set ra (UFNode.info rka d), rka, dda, hu, h1ra,
    by rw [List.getElem?_set_eq_of_lt _ hralt], ?_, ?_, ?_⟩
  · intro p
    have t1 := (ufFind_frame_views _ st a ra st1 hfa p).1
    have t2 := (ufFind_frame_views _ st1 b ra st2 hfb p).1
    by_cases hp : p = ra
    · subst hp
      unfold ufRedundant at t1 t2 ⊢
      rw [List.getElem?_set_eq_of_lt _ hralt, h1ra]
    · unfold ufRedundant at t1 t2 ⊢
      rw [List.getElem?_set_ne (fun he => hp he.symm)]
      rw [t2, t1]
  · intro p
    have t1 := (ufFind_frame_views _ st a ra st1 hfa p).2
    have t2 := (ufFind_frame_views _ st1 b ra st2 hfb p).2
    by_cases hp : p = ra
    · subst hp
      unfold ufRankView at t1 t2 ⊢
      rw [List.getElem?_set_eq_of_lt _ hralt, h1ra]
    · unfold ufRankView at t1 t2 ⊢
      rw [List.getElem?_set_ne (fun he => hp he.symm)]
      rw [t2, t1]
  · obtain ⟨stA, stB, _, _, hga, hgb, _, _⟩ :=
      ufUnion_get_set_get (m+1) st a b d d _ hu
    exact ⟨stA, stB, hga, hgb⟩

/-- Concrete run of the C9 theorem on a two-point class: point 1 links to
root 0, union(1, 0, d) only rewrites the root descriptor. -/
theorem claim_c9_union_same_class_witness :
    ∃ (stu : UFStore String) (rk : Nat) (d0 : String),
      ufUnion 3 [UFNode.info 4 "x", UFNode.link 0] 1 0 "d" = some stu ∧
      [UFNode.info 4 "x", UFNode.link 0][0]? = some (UFNode.info rk d0) ∧
      stu[0]? = some (UFNode.info rk "d") ∧
      (∀ p : Nat, ufRedundant stu p =
        ufRedundant [UFNode.info 4 "x", UFNode.link 0] p) ∧
      (∀ p : Nat, ufRankView stu p =
        ufRankView [UFNode.info 4 "x", UFNode.link 0] p) ∧
      ∃ stA stB : UFStore String,
        ufGet 3 stu 1 = some ("d", stA) ∧ ufGet 3 stA 0 = some ("d", stB) :=
  claim_c9_union_same_class 3 [UFNode.info 4 "x", UFNode.link 0] 1 0 0 0
    [UFNode.info 4 "x", UFNode.link 0] [UFNode.info 4 "x", UFNode.link 0]
    "d" (by decide) (by decide) rfl

/-! ## Attribute-type lookup (src/attribute_types.rs, src/ast_query.rs) -/

/-- ASCII lowercasing of one character (to_ascii_lowercase). -/
def asciiLowerChar (c : Char) : Char :=
  if 65 ≤ c.toNat ∧ c.toNat ≤ 90 then Char.ofNat (c.toNat + 32) else c

/-- ASCII lowercasing of a string (str::to_ascii_lowercase). -/
def asciiLower (s : String) : String :=
  String.mk (s.data.map asciiLowerChar)

/-- First-match association-list lookup, the map interface used by the
embedded HashMap and BTreeMap values (keys are unique in every store the
source builds, so first-match lookup is the map lookup). -/
def alookup {α : Type} (k : String) : List (String × α) → Option α
  | [] => none
  | (k2, v) :: rest => if k2 = k then some v else alookup k rest

/-- The static tag-to-attribute-to-type table.  The concrete JSON data is
declared opaque by the specification, so the lookup is parametrised by it. -/
abbrev AttrTable := List (String × List (String × String))

/-- Embedding of attribute_type in attribute_types.rs: lowercase the tag,
look up its attribute map, try the attribute exactly, then lowercased. -/
def attribute_type (table : AttrTable) (tag attr : String) : Option String :=
  match alookup (asciiLower tag) table with
  | none => none
  | some attrs =>
    match alookup attr attrs with
    | some ty => some ty
    | none => alookup (asciiLower attr) attrs

/-- Embedding of infer_attr_type in ast_query.rs: default to string when
the table has no answer. -/
def infer_attr_type (table : AttrTable) (attr tag : String) : String :=
  match attribute_type table tag attr with
  | some ty => ty
  | none => "string"

theorem asciiLowerChar_idem (c : Char) :
    asciiLowerChar (asciiLowerChar c) = asciiLowerChar c := by
  by_cases h : 65 ≤ c.toNat ∧ c.toNat ≤ 90
  · have h1 : asciiLowerChar c = Char.ofNat (c.toNat + 32) := by
      unfold asciiLowerChar; rw [if_pos h]
    have hlt : c.toNat + 32 < 55296 := by omega
    have hv : (c.toNat + 32).isValidChar := Or.inl hlt
    have ht : (Char.ofNat (c.toNat + 32)).toNat = c.toNat + 32 := by
      show (Char.ofNat (c.toNat + 32)).val.toNat = c.toNat + 32
      unfold Char.ofNat
      rw [dif_pos hv]
      rfl
    rw [h1]
    unfold asciiLowerChar
    rw [if_neg (by rw [ht]; omega)]
  · have h1 : asciiLowerChar c = c := by unfold asciiLowerChar; rw [if_neg h]
    rw [h1, h1]

theorem asciiLower_idem (s : String) :
    asciiLower (asciiLower s) = asciiLower s := by
  unfold asciiLower
  simp only [List.map_map]
  have hc : asciiLowerChar ∘ asciiLowerChar = asciiLowerChar :=
    funext fun c => asciiLowerChar_idem c
  rw [hc]

/-- C8: the attribute lookup lowercases the tag before indexing the table
(so two tags with the same lowercase form are interchangeable, and a tag is
interchangeable with its own lowercasing), tries the attribute key exactly
as given before falling back to its lowercase form, and infer_attr_type
returns the found type name, defaulting to string when the tag is unknown
or neither attribute key is present. -/
theorem claim_c8_attr_type_lookup :
    (∀ (table : AttrTable) (tag1 tag2 attr : String),
      asciiLower tag1 = asciiLower tag2 →
      attribute_type table tag1 attr = attribute_type table tag2 attr) ∧
    (∀ (table : AttrTable) (tag attr : String),
      attribute_type table tag attr =
        attribute_type table (asciiLower tag) attr) ∧
    (∀ (table : AttrTable) (tag attr : String)
      (attrs : List (String × String)) (ty : String),
      alookup (asciiLower tag) table = some attrs →
      alookup attr attrs = some ty →
      attribute_type table tag attr = some ty) ∧
    (∀ (table : AttrTable) (tag attr : String)
      (attrs : List (String × String)) (ty : String),
      alookup (asciiLower tag) table = some attrs →
      alookup attr attrs = none →
      alookup (asciiLower attr) attrs = some ty →
      attribute_type table tag attr = some ty) ∧
    (∀ (table : AttrTable) (tag attr : String),
      alookup (asciiLower tag) table = none →
      infer_attr_type table attr tag = "string") ∧
    (∀ (table : AttrTable) (tag attr : String)
      (attrs : List (String × String)),
      alookup (asciiLower tag) table = some attrs →
      alookup attr attrs = none →
      alookup (asciiLower attr) attrs = none →
      infer_attr_type table attr tag = "string") ∧
    (∀ (table : AttrTable) (tag attr ty : String),
      attribute_type table tag attr = some ty →
      infer_attr_type table attr tag = ty) := by
  refine ⟨?_, ?_, ?_, ?_, ?_, ?_, ?_⟩
  · intro table tag1 tag2 attr h
    unfold attribute_type
    rw [h]
  · intro table tag attr
    unfold attribute_type
    rw [asciiLower_idem]
  · intro table tag attr attrs ty h1 h2
    simp only [attribute_type, h1, h2]
  · intro table tag attr attrs ty h1 h2 h3
    simp only [attribute_type, h1, h2, h3]
  · intro table tag attr h1
    simp only [infer_attr_type, attribute_type, h1]
  · intro table tag attr attrs h1 h2 h3
    simp only [infer_attr_type, attribute_type, h1, h2, h3]
  · intro table tag attr ty h
    simp only [infer_attr_type, h]

/-- Concrete runs of the C8 theorem on a two-entry attribute map: exact
match wins over the lowercase fallback, the fallback fires when the exact
key misses, unknown tags and unknown attributes default to string, and tag
case is irrelevant. -/
theorem claim_c8_attr_type_lookup_witness :
    attribute_type [("input", [("maxLength", "number"), ("maxlength", "other")])]
      "INPUT" "maxLength" = some "number" ∧
    attribute_type [("input", [("maxLength", "number"), ("maxlength", "other")])]
      "Input" "MAXLENGTH" = some "other" ∧
    infer_attr_type [("input", [("maxLength", "number"), ("maxlength", "other")])]
      "value" "input" = "string" ∧
    infer_attr_type [("input", [("maxLength", "number"), ("maxlength", "other")])]
      "maxLength" "div" = "string" ∧
    infer_attr_type [("input", [("maxLength", "number"), ("maxlength", "other")])]
      "maxLength" "INPUT" = "number" :=
  ⟨(claim_c8_attr_type_lookup.2.2.1)
      [("input", [("maxLength", "number"), ("maxlength", "other")])]
      "INPUT" "maxLength" [("maxLength", "number"), ("maxlength", "other")]
      "number" (by decide) (by decide),
   (claim_c8_attr_type_lookup.2.2.2.1)
      [("input", [("maxLength", "number"), ("maxlength", "other")])]
      "Input" "MAXLENGTH" [("maxLength", "number"), ("maxlength", "other")]
      "other" (by decide) (by decide) (by decide),
   (claim_c8_attr_type_lookup.2.2.2.2.2.1)
      [("input", [("maxLength", "number"), ("maxlength", "other")])]
      "input" "value" [("maxLength", "number"), ("maxlength", "other")]
      (by decide) (by decide) (by decide),
   (claim_c8_attr_type_lookup.2.2.2.2.1)
      [("input", [("maxLength", "number"), ("maxlength", "other")])]
      "div" "maxLength" (by decide),
   (claim_c8_attr_type_lookup.2.2.2.2.2.2)
      [("input", [("maxLength", "number"), ("maxlength", "other")])]
      "INPUT" "maxLength" "number" (by decide)⟩

/-! ## Expression dependency extraction (src/expr.rs) -/

mutual
/-- Expression AST from expr.rs.  Spans are irrelevant to dependency
extraction and are dropped; Variable and Number carry their text. -/
inductive Expr where
  | stringTemplate (segments : List Segment)
  | var (name : String)
  | num (digits : String)
  | field (base : Expr) (name : String)
  | functionCall (callee : Expr) (args : List Expr)
  | pipe (left : Expr) (right : Expr)

/-- StringTemplateSegment from expr.rs. -/
inductive Segment where
  | lit (s : String)
  | interp (e : Expr)
end

/-- Keys of the BUILTINS table in builtins.rs. -/
def builtinNames : List String := ["numberToString", "boolean", "lookup"]

/-- HashSet insert on the dependency set: add the path when absent. -/
def insertDep (d : String) (deps : List String) : List String :=
  if d ∈ deps then deps else d :: deps

mutual
/-- Embedding of the collect_path loop inside expr_dependencies: walk the
head chain accumulating field names (the Vec push plus final reverse is
modelled by building the list front-first), emit the dotted path at a
variable unless it is a builtin key, restart the path at calls and pipes,
and recurse into arguments, pipe sides and interpolations. -/
def collectPath : Expr → List String → List String → List String
  | .var name, path, deps =>
    let dep := String.intercalate "." (name :: path)
    if dep ∈ builtinNames then deps else insertDep dep deps
  | .num _, _, deps => deps
  | .field base f, path, deps => collectPath base (f :: path) deps
  | .functionCall callee args, _, deps =>
    collectPath callee [] (collectArgs args deps)
  | .pipe l r, _, deps => collectPath r [] (collectPath l [] deps)
  | .stringTemplate segs, _, deps => collectSegs segs deps

/-- Argument traversal of collect_path: each argument restarts its path. -/
def collectArgs : List Expr → List String → List String
  | [], deps => deps
  | a :: rest, deps => collectArgs rest (collectPath a [] deps)

/-- Segment traversal of collect_path: literals are skipped. -/
def collectSegs : List Segment → List String → List String
  | [], deps => deps
  | .lit _ :: rest, deps => collectSegs rest deps
  | .interp e :: rest, deps => collectSegs rest (collectPath e [] deps)
end

/-- Embedding of expr_dependencies in expr.rs. -/
def expr_dependencies (e : Expr) : List String := collectPath e [] []

/-- Chain builder: wrap an expression in successive field accesses, the
shape the postfix parser produces for a dotted path read left to right. -/
def chainFrom (e : Expr) : List String → Expr
  | [] => e
  | f :: fs => chainFrom (Expr.field e f) fs

/-- The AST of the source text x.f1.f2...fn. -/
def mkChain (x : String) (fs : List String) : Expr :=
  chainFrom (Expr.var x) fs

theorem mem_insertDep (s d : String) (deps : List String) :
    s ∈ insertDep d deps ↔ s = d ∨ s ∈ deps := by
  unfold insertDep
  split
  next hmem =>
    constructor
    · exact fun h => Or.inr h
    · rintro (rfl | h)
      · exact hmem
      · exact h
  next hmem => simp [List.mem_cons]

theorem collectPath_chainFrom :
    ∀ (fs : List String) (e : Expr) (path deps : List String),
      collectPath (chainFrom e fs) path deps =
        collectPath e (fs ++ path) deps := by
  intro fs
  induction fs with
  | nil => intro e path deps; rfl
  | cons f fs ih =>
    intro e path deps
    show collectPath (chainFrom (Expr.field e f) fs) path deps = _
    rw [ih]
    rfl

/-- Accumulator lemma family: the dependency set computed on top of an
accumulator is the union of the set computed from scratch and the
accumulator, for expressions, argument lists and segment lists at once
(strong induction on size). -/
theorem collect_mem_all :
    ∀ n : Nat,
      (∀ e : Expr, sizeOf e ≤ n → ∀ (path deps : List String) (s : String),
        (s ∈ collectPath e path deps ↔ s ∈ collectPath e path [] ∨ s ∈ deps)) ∧
      (∀ args : List Expr, sizeOf args ≤ n → ∀ (deps : List String) (s : String),
        (s ∈ collectArgs args deps ↔ s ∈ collectArgs args [] ∨ s ∈ deps)) ∧
      (∀ segs : List Segment, sizeOf segs ≤ n → ∀ (deps : List String) (s : String),
        (s ∈ collectSegs segs deps ↔ s ∈ collectSegs segs [] ∨ s ∈ deps)) := by
  intro n
  induction n using Nat.strong_induction_on with
  | _ n ih =>
    refine ⟨?_, ?_, ?_⟩
    · intro e hsz path deps s
      cases e with
      | var name =>
        simp only [collectPath]
        split
        · simp
        · simp only [mem_insertDep]
          constructor
          · rintro (rfl | h)
            · exact Or.inl (Or.inl rfl)
            · exact Or.inr h
          · rintro ((rfl | h) | h)
            · exact Or.inl rfl
            · cases h
            · exact Or.inr h
      | num digits => simp [collectPath]
      | field base f =>
        have hb : sizeOf base < n := by
          have : sizeOf base < sizeOf (Expr.field base f) := by
            simp <;> omega
          omega
        simp only [collectPath]
        exact (ih (sizeOf base) hb).1 base (le_refl _) (f :: path) deps s
      | functionCall callee args =>
        have hc : sizeOf callee < n := by
          have : sizeOf callee < sizeOf (Expr.functionCall callee args) := by
            simp <;> omega
          omega
        have ha : sizeOf args < n := by
          have : sizeOf args < sizeOf (Expr.functionCall callee args) := by
            simp <;> omega
          omega
        have ihc := (ih (sizeOf callee) hc).1 callee (le_refl _)
        have iha := (ih (sizeOf args) ha).2.1 args (le_refl _)
        simp only [collectPath]
        rw [ihc [] (collectArgs args deps) s, iha deps s,
          ihc [] (collectArgs args []) s]
        tauto
      | pipe l r =>
        have hl : sizeOf l < n := by
          have : sizeOf l < sizeOf (Expr.pipe l r) := by simp <;> omega
          omega
        have hr : sizeOf r < n := by
          have : sizeOf r < sizeOf (Expr.pipe l r) := by simp <;> omega
          omega
        have ihl := (ih (sizeOf l) hl).1 l (le_refl _)
        have ihr := (ih (sizeOf r) hr).1 r (le_refl _)
        simp only [collectPath]
        rw [ihr [] (collectPath l [] deps) s, ihl [] deps s,
          ihr [] (collectPath l [] []) s, ihl [] [] s]
        tauto
      | stringTemplate segs =>
        have hs2 : sizeOf segs < n := by
          have : sizeOf segs < sizeOf (Expr.stringTemplate segs) := by
            simp <;> omega
          omega
        simp only [collectPath]
        exact (ih (sizeOf segs) hs2).2.2 segs (le_refl _) deps s
    · intro args hsz deps s
      cases args with
      | nil => simp [collectArgs]
      | cons a rest =>
        have haa : sizeOf a < n := by
          have : sizeOf a < sizeOf (a :: rest) := by simp <;> omega
          omega
        have hrest : sizeOf rest < n := by
          have : sizeOf rest < sizeOf (a :: rest) := by simp <;> omega
          omega
        have iha := (ih (sizeOf a) haa).1 a (le_refl _)
        have ihr := (ih (sizeOf rest) hrest).2.1 rest (le_refl _)
        simp only [collectArgs]
        rw [ihr (collectPath a [] deps) s, iha [] deps s,
          ihr (collectPath a [] []) s]
        tauto
    · intro segs hsz deps s
      cases segs with
      | nil => simp [collectSegs]
      | cons seg rest =>
        have hrest : sizeOf rest < n := by
          have : sizeOf rest < sizeOf (seg :: rest) := by simp <;> omega
          omega
        have ihr := (ih (sizeOf rest) hrest).2.2 rest (le_refl _)
        cases seg with
        | lit str =>
          simp only [collectSegs]
          exact ihr deps s
        | interp e =>
          have he : sizeOf e < n := by
            have : sizeOf e < sizeOf (Segment.interp e :: rest) := by
              simp <;> omega
            omega
          have ihe := (ih (sizeOf e) he).1 e (le_refl _)
          simp only [collectSegs]
          rw [ihr (collectPath e [] deps) s, ihe [] deps s,
            ihr (collectPath e [] []) s]
          tauto

theorem collectPath_mem (e : Expr) (path deps : List String) (s : String) :
    s ∈ collectPath e path deps ↔ s ∈ collectPath e path [] ∨ s ∈ deps :=
  (collect_mem_all (sizeOf e)).1 e (le_refl _) path deps s

theorem collectArgs_mem (args : List Expr) (deps : List String) (s : String) :
    s ∈ collectArgs args deps ↔ s ∈ collectArgs args [] ∨ s ∈ deps :=
  (collect_mem_all (sizeOf args)).2.1 args (le_refl _) deps s

theorem collectArgs_flatten (args : List Expr) (s : String) :
    s ∈ collectArgs args [] ↔ ∃ a, a ∈ args ∧ s ∈ expr_dependencies a := by
  induction args with
  | nil => simp [collectArgs]
  | cons a rest ih =>
    simp only [collectArgs]
    rw [collectArgs_mem rest (collectPath a [] []) s, ih]
    unfold expr_dependencies
    constructor
    · rintro (⟨a2, ha2, hs⟩ | h)
      · exact ⟨a2, List.mem_cons_of_mem a ha2, hs⟩
      · exact ⟨a, List.mem_cons_self a rest, h⟩
    · rintro ⟨a2, ha2, hs⟩
      rcases List.mem_cons.mp ha2 with rfl | ha2
      · exact Or.inr hs
      · exact Or.inl ⟨a2, ha2, hs⟩

theorem collectSegs_flatten (segs : List Segment) (s : String) :
    s ∈ collectSegs segs [] ↔
      ∃ e, Segment.interp e ∈ segs ∧ s ∈ expr_dependencies e := by
  induction segs with
  | nil => simp [collectSegs]
  | cons seg rest ih =>
    cases seg with
    | lit str =>
      simp only [collectSegs]
      rw [ih]
      constructor
      · rintro ⟨e, he, hs⟩
        exact ⟨e, List.mem_cons_of_mem _ he, hs⟩
      · rintro ⟨e, he, hs⟩
        rcases List.mem_cons.mp he with heq | he
        · cases heq
        · exact ⟨e, he, hs⟩
    | interp e0 =>
      simp only [collectSegs]
      rw [(collect_mem_all (sizeOf rest)).2.2 rest (le_refl _)
            (collectPath e0 [] []) s, ih]
      unfold expr_dependencies
      constructor
      · rintro (⟨e, he, hs⟩ | h)
        · exact ⟨e, List.mem_cons_of_mem _ he, hs⟩
        · exact ⟨e0, List.mem_cons_self _ rest, h⟩
      · rintro ⟨e, he, hs⟩
        rcases List.mem_cons.mp he with heq | he
        · cases heq
          exact Or.inr hs
        · exact Or.inl ⟨e, he, hs⟩

/-- C3: expr_dependencies collects dotted paths: a variable contributes
its name unless it is a builtin; a field chain bottoming out at a
variable contributes the dotted path in source order; a function call and
a pipe restart the current path (their result ignores the incoming path)
and take the union of the callee/left and argument/right dependencies; a
string template collects over its interpolations; and the three concrete
examples of the specification evaluate to the stated sets, with builtins
excluded. -/
theorem claim_c3_expr_dependencies :
    (∀ x : String, expr_dependencies (Expr.var x) =
      if x ∈ builtinNames then [] else [x]) ∧
    (∀ (x : String) (fs path deps : List String),
      collectPath (mkChain x fs) path deps =
        collectPath (Expr.var x) (fs ++ path) deps) ∧
    (∀ (x : String) (fs : List String),
      String.intercalate "." (x :: fs) ∉ builtinNames →
      expr_dependencies (mkChain x fs) = [String.intercalate "." (x :: fs)]) ∧
    (∀ (c : Expr) (args : List Expr) (path deps : List String),
      collectPath (Expr.functionCall c args) path deps =
        collectPath (Expr.functionCall c args) [] deps) ∧
    (∀ (c : Expr) (args : List Expr) (s : String),
      s ∈ expr_dependencies (Expr.functionCall c args) ↔
        s ∈ expr_dependencies c ∨ ∃ a, a ∈ args ∧ s ∈ expr_dependencies a) ∧
    (∀ (l r : Expr) (path deps : List String),
      collectPath (Expr.pipe l r) path deps =
        collectPath (Expr.pipe l r) [] deps) ∧
    (∀ (l r : Expr) (s : String),
      s ∈ expr_dependencies (Expr.pipe l r) ↔
        s ∈ expr_dependencies l ∨ s ∈ expr_dependencies r) ∧
    (∀ (segs : List Segment) (s : String),
      s ∈ expr_dependencies (Expr.stringTemplate segs) ↔
        ∃ e, Segment.interp e ∈ segs ∧ s ∈ expr_dependencies e) ∧
    (expr_dependencies (Expr.functionCall (Expr.var "f")
        [Expr.field (Expr.var "a") "x",
         Expr.field (Expr.var "a") "y"])).toFinset =
      ({"f", "a.x", "a.y"} : Finset String) ∧
    (expr_dependencies (Expr.field (Expr.field
        (Expr.functionCall
          (Expr.field (Expr.field (Expr.var "a") "b") "c") [])
        "d") "e")).toFinset = ({"a.b.c"} : Finset String) ∧
    (expr_dependencies (Expr.pipe (Expr.field (Expr.var "a") "b")
        (Expr.functionCall (Expr.var "f")
          [Expr.field (Expr.var "c") "d"]))).toFinset =
      ({"a.b", "f", "c.d"} : Finset String) ∧
    expr_dependencies (Expr.var "numberToString") = [] := by
  refine ⟨?_, ?_, ?_, ?_, ?_, ?_, ?_, ?_, ?_, ?_, ?_, ?_⟩
  · intro x
    show (if String.intercalate "." [x] ∈ builtinNames then []
      else insertDep (String.intercalate "." [x]) []) = _
    have hx : String.intercalate "." [x] = x := rfl
    rw [hx]
    split
    next h => rfl
    next h => simp [insertDep]
  · intro x fs path deps
    exact collectPath_chainFrom fs (Expr.var x) path deps
  · intro x fs hnb
    unfold expr_dependencies mkChain
    rw [collectPath_chainFrom fs (Expr.var x) [] [], List.append_nil]
    show (if String.intercalate "." (x :: fs) ∈ builtinNames then []
      else insertDep (String.intercalate "." (x :: fs)) []) = _
    rw [if_neg hnb]
    rfl
  · intro c args path deps; rfl
  · intro c args s
    unfold expr_dependencies
    show s ∈ collectPath c [] (collectArgs args []) ↔ _
    rw [collectPath_mem c [] (collectArgs args []) s, collectArgs_flatten]
    rfl
  · intro l r path deps; rfl
  · intro l r s
    unfold expr_dependencies
    show s ∈ collectPath r [] (collectPath l [] []) ↔ _
    rw [collectPath_mem r [] (collectPath l [] []) s]
    tauto
  · intro segs s
    unfold expr_dependencies
    show s ∈ collectSegs segs [] ↔ _
    exact collectSegs_flatten segs s
  · decide
  · decide
  · decide
  · decide

/-- Concrete run of the C3 chain rule: a.b is not a builtin key, so the
chain a.b contributes exactly the dotted path a.b. -/
theorem claim_c3_expr_dependencies_witness :
    expr_dependencies (mkChain "a" ["b"]) =
      [String.intercalate "." ["a", "b"]] :=
  claim_c3_expr_dependencies.2.2.1 "a" ["b"] (by decide)

/-! ## Topological sort (src/graph.rs) -/

/-- VisitState from graph.rs. -/
inductive VisitState where
  | visiting
  | visited
deriving DecidableEq, Repr

/-- Cycle from graph.rs, specialised to string keys (view names). -/
structure GraphCycle where
  nodes : List String
deriving DecidableEq, Repr

/-- Generalised first-match association-list lookup for arbitrary keys
(used for the requires graph, whose keys are file paths). -/
def alookupG {κ α : Type} [DecidableEq κ] (k : κ) :
    List (κ × α) → Option α
  | [] => none
  | (k2, v) :: rest => if k2 = k then some v else alookupG k rest

/-- HashMap insert modelled by shadowing cons (observed only via lookup). -/
def minsert {κ α : Type} (k : κ) (v : α) (m : List (κ × α)) :
    List (κ × α) :=
  (k, v) :: m

/-- The dependency map fed to topo_sort: each view name with the names it
references.  The HashMap and HashSet of the source are modelled as lists;
both are sorted before being visited, exactly as the source sorts them. -/
abbrev Deps := List (String × List String)

/-- Children of a node in the dependency map (empty when absent). -/
def childrenOf (deps : Deps) (k : String) : List String :=
  (alookupG k deps).getD []

/-- Kernel-computable lexicographic comparison of character lists by code
point, the order Ord on String uses on the ASCII names involved. -/
def charListLe : List Char → List Char → Bool
  | [], _ => true
  | _ :: _, [] => false
  | c1 :: r1, c2 :: r2 =>
    if c1.toNat < c2.toNat then true
    else if c2.toNat < c1.toNat then false
    else charListLe r1 r2

/-- Lexicographic order on strings as a decidable relation. -/
def strLeP (a b : String) : Prop := charListLe a.data b.data = true

instance : DecidableRel strLeP := fun a b => by unfold strLeP; infer_instance

theorem char_toNat_inj {c d : Char} (h : c.toNat = d.toNat) : c = d := by
  cases c
  cases d
  congr 1
  exact UInt32.ext h

theorem charListLe_total : ∀ l1 l2 : List Char,
    charListLe l1 l2 = true ∨ charListLe l2 l1 = true := by
  intro l1
  induction l1 with
  | nil => intro l2; exact Or.inl rfl
  | cons c1 r1 ih =>
    intro l2
    cases l2 with
    | nil => exact Or.inr rfl
    | cons c2 r2 =>
      unfold charListLe
      rcases Nat.lt_trichotomy c1.toNat c2.toNat with hlt | heq | hgt
      · left; rw [if_pos hlt]
      · rw [heq]
        have hirr : ¬ (c2.toNat < c2.toNat) := lt_irrefl _
        rcases ih r2 with h | h
        · left; rw [if_neg hirr, if_neg hirr]; exact h
        · right; rw [if_neg hirr, if_neg hirr]; exact h
      · right; rw [if_pos hgt]

theorem charListLe_trans : ∀ l1 l2 l3 : List Char,
    charListLe l1 l2 = true → charListLe l2 l3 = true →
    charListLe l1 l3 = true := by
  intro l1
  induction l1 with
  | nil => intro l2 l3 _ _; rfl
  | cons c1 r1 ih =>
    intro l2 l3 h12 h23
    cases l2 with
    | nil => simp [charListLe] at h12
    | cons c2 r2 =>
      cases l3 with
      | nil => simp [charListLe] at h23
      | cons c3 r3 =>
        unfold charListLe at h12 h23 ⊢
        rcases Nat.lt_trichotomy c1.toNat c2.toNat with h1 | h1 | h1 <;>
          rcases Nat.lt_trichotomy c2.toNat c3.toNat with h2 | h2 | h2
        all_goals (
          first
          | (rw [if_pos (by omega)])
          | (rw [if_neg (by omega), if_neg (by omega)]
             rw [if_neg (by omega), if_neg (by omega)] at h12 h23
             exact ih r2 r3 h12 h23)
          | (rw [if_pos (by omega)] at h12 h23 <;> omega)
          | (rw [if_neg (by omega), if_pos (by omega)] at h12; cases h12)
          | (rw [if_neg (by omega), if_pos (by omega)] at h23; cases h23))

theorem charListLe_antisymm : ∀ l1 l2 : List Char,
    charListLe l1 l2 = true → charListLe l2 l1 = true → l1 = l2 := by
  intro l1
  induction l1 with
  | nil =>
    intro l2 _ h21
    cases l2 with
    | nil => rfl
    | cons c2 r2 => simp [charListLe] at h21
  | cons c1 r1 ih =>
    intro l2 h12 h21
    cases l2 with
    | nil => simp [charListLe] at h12
    | cons c2 r2 =>
      unfold charListLe at h12 h21
      rcases Nat.lt_trichotomy c1.toNat c2.toNat with h1 | h1 | h1
      · rw [if_neg (by omega), if_pos (by omega)] at h21; cases h21
      · rw [if_neg (by omega), if_neg (by omega)] at h12 h21
        rw [char_toNat_inj h1, ih r2 h12 h21]
      · rw [if_neg (by omega), if_pos (by omega)] at h12; cases h12

instance : IsTotal String strLeP :=
  ⟨fun a b => charListLe_total a.data b.data⟩

instance : IsTrans String strLeP :=
  ⟨fun a b c => charListLe_trans a.data b.data c.data⟩

instance : IsAntisymm String strLeP :=
  ⟨fun a b h1 h2 => by
    cases a
    cases b
    exact congrArg String.mk (charListLe_antisymm _ _ h1 h2)⟩

/-- The sort the source applies to root nodes and to children (Vec::sort
on String keys, i.e. lexicographic order). -/
def sortStrings (l : List String) : List String :=
  l.insertionSort strLeP

theorem mem_sortStrings {a : String} {l : List String} :
    a ∈ sortStrings l ↔ a ∈ l :=
  (List.perm_insertionSort strLeP l).mem_iff

/-- DFS state of topo_sort: visit marks, explicit stack, output order. -/
structure TopoState where
  marks : List (String × VisitState)
  stack : List String
  order : List String
deriving DecidableEq, Repr

/-- A pending unit of DFS work: one node, or a list of children.  This
packages the two mutually recursive functions of the source into one
fuel-structural function so that concrete runs reduce in the kernel. -/
inductive VisitTask where
  | node (nd : String)
  | nodes (cs : List String)

/-- Embedding of visit in graph.rs: Visited returns immediately, Visiting
reports the cycle as the stack suffix from the first occurrence of the
node, and an unmarked node is marked Visiting, pushed, has its sorted
children visited, then is marked Visited, popped and appended to the
order. -/
def visitGo (deps : Deps) : Nat → VisitTask → TopoState →
    Option (Except GraphCycle TopoState)
  | 0, _, _ => none
  | fuel+1, .node node, st =>
    match alookupG node st.marks with
    | some .visited => some (.ok st)
    | some .visiting =>
      let start := (st.stack.findIdx? (fun n => n = node)).getD 0
      some (.error ⟨st.stack.drop start ++ [node]⟩)
    | none =>
      match visitGo deps fuel (.nodes (sortStrings (childrenOf deps node)))
          ⟨minsert node .visiting st.marks, st.stack ++ [node], st.order⟩ with
      | some (.ok st2) =>
        some (.ok ⟨minsert node .visited st2.marks, st2.stack.dropLast,
          st2.order ++ [node]⟩)
      | other => other
  | _+1, .nodes [], st => some (.ok st)
  | fuel+1, .nodes (c :: rest), st =>
    match visitGo deps fuel (.node c) st with
    | some (.ok st2) => visitGo deps fuel (.nodes rest) st2
    | other => other

/-- The visit function of graph.rs on a single node. -/
def visitNode (deps : Deps) (fuel : Nat) (nd : String) (st : TopoState) :
    Option (Except GraphCycle TopoState) :=
  visitGo deps fuel (.node nd) st

/-- The sorted-children iteration of visit. -/
def visitChildren (deps : Deps) (fuel : Nat) (cs : List String)
    (st : TopoState) : Option (Except GraphCycle TopoState) :=
  visitGo deps fuel (.nodes cs) st

/-- Iteration of visit over the sorted key list in topo_sort. -/
def visitAll (deps : Deps) (fuel : Nat) : List String → TopoState →
    Option (Except GraphCycle TopoState)
  | [], st => some (.ok st)
  | nd :: rest, st =>
    match visitNode deps fuel nd st with
    | some (.ok st2) => visitAll deps fuel rest st2
    | other => other

/-- Embedding of topo_sort in graph.rs: visit all keys in sorted order
starting from an empty state and return the accumulated order. -/
def topo_sort (fuel : Nat) (deps : Deps) :
    Option (Except GraphCycle (List String)) :=
  match visitAll deps fuel (sortStrings (deps.map Prod.fst)) ⟨[], [], []⟩ with
  | some (.ok st) => some (.ok st.order)
  | some (.error c) => some (.error c)
  | none => none

/-- The order is topological: every entry has all its children strictly
earlier in the order. -/
def TopoOk (deps : Deps) (order : List String) : Prop :=
  ∀ (i : Nat) (a : String), order[i]? = some a →
    ∀ b ∈ childrenOf deps a, b ∈ order.take i

/-- DFS invariant: visited marks and order membership coincide, and the
order built so far is topological. -/
def TopoInv (deps : Deps) (st : TopoState) : Prop :=
  (∀ n, alookupG n st.marks = some VisitState.visited → n ∈ st.order) ∧
  (∀ n ∈ st.order, alookupG n st.marks = some VisitState.visited) ∧
  TopoOk deps st.order

theorem alookupG_minsert_self {κ α : Type} [DecidableEq κ] (k : κ) (v : α)
    (m : List (κ × α)) : alookupG k (minsert k v m) = some v := by
  simp [alookupG, minsert]

theorem alookupG_minsert_ne {κ α : Type} [DecidableEq κ] (k k2 : κ) (v : α)
    (m : List (κ × α)) (hne : k2 ≠ k) :
    alookupG k (minsert k2 v m) = alookupG k m := by
  simp [alookupG, minsert, hne]

/-- Invariant preservation for the DFS of topo_sort: a successful visit
keeps the invariant, never unmarks a visited node, and leaves the visited
node marked. -/
theorem visit_spec (deps : Deps) :
    ∀ fuel : Nat,
      (∀ (nd : String) (st st2 : TopoState),
        visitNode deps fuel nd st = some (.ok st2) → TopoInv deps st →
        TopoInv deps st2 ∧
        (∀ n, alookupG n st.marks = some VisitState.visited →
          alookupG n st2.marks = some VisitState.visited) ∧
        alookupG nd st2.marks = some VisitState.visited) ∧
      (∀ (cs : List String) (st st2 : TopoState),
        visitChildren deps fuel cs st = some (.ok st2) → TopoInv deps st →
        TopoInv deps st2 ∧
        (∀ n, alookupG n st.marks = some VisitState.visited →
          alookupG n st2.marks = some VisitState.visited) ∧
        (∀ c ∈ cs, alookupG c st2.marks = some VisitState.visited)) := by
  intro fuel
  induction fuel with
  | zero =>
    constructor
    · intro nd st st2 h; simp [visitNode, visitGo] at h
    · intro cs st st2 h hinv; simp [visitChildren, visitGo] at h
  | succ fuel ih =>
    obtain ⟨ihN0, ihC⟩ := ih
    have nodePart :
        ∀ (nd : String) (st st2 : TopoState),
          visitNode deps (fuel + 1) nd st = some (.ok st2) → TopoInv deps st →
          TopoInv deps st2 ∧
          (∀ n, alookupG n st.marks = some VisitState.visited →
            alookupG n st2.marks = some VisitState.visited) ∧
          alookupG nd st2.marks = some VisitState.visited := by
      intro nd st st2 h hinv
      unfold visitNode visitGo at h
      split at h
      next hm =>
        cases h
        exact ⟨hinv, fun n hn => hn, hm⟩
      next hm => cases h
      next hm =>
        cases hc : visitGo deps fuel
            (.nodes (sortStrings (childrenOf deps nd)))
            ⟨minsert nd VisitState.visiting st.marks, st.stack ++ [nd],
              st.order⟩ with
        | none => rw [hc] at h; cases h
        | some r =>
          cases r with
          | error e => rw [hc] at h; cases h
          | ok stc =>
            rw [hc] at h
            cases h
            have hndupe : nd ∉ st.order := by
              intro hmem
              have := hinv.2.1 nd hmem
              rw [hm] at this
              cases this
            have hinv1 : TopoInv deps
                ⟨minsert nd VisitState.visiting st.marks, st.stack ++ [nd],
                  st.order⟩ := by
              refine ⟨?_, ?_, hinv.2.2⟩
              · intro n hn
                by_cases hne : nd = n
                · subst hne
                  rw [alookupG_minsert_self] at hn
                  cases hn
                · rw [alookupG_minsert_ne n nd _ _ hne] at hn
                  exact hinv.1 n hn
              · intro n hn
                have hnne : nd ≠ n := fun he => hndupe (he ▸ hn)
                rw [alookupG_minsert_ne n nd _ _ hnne]
                exact hinv.2.1 n hn
            obtain ⟨hinvc, hpersist, hkids⟩ :=
              ihC (sortStrings (childrenOf deps nd)) _ stc hc hinv1
            have hpersist0 :
                ∀ n, alookupG n st.marks = some VisitState.visited →
                  alookupG n stc.marks = some VisitState.visited := by
              intro n hn
              have hnne : nd ≠ n := by
                intro he; subst he; rw [hm] at hn; cases hn
              exact hpersist n (by rw [alookupG_minsert_ne n nd _ _ hnne]; exact hn)
            refine ⟨⟨?_, ?_, ?_⟩, ?_, alookupG_minsert_self nd _ _⟩
            · intro n hn
              by_cases hne : nd = n
              · subst hne
                exact List.mem_append_right _ (List.mem_singleton.mpr rfl)
              · rw [alookupG_minsert_ne n nd _ _ hne] at hn
                exact List.mem_append_left _ (hinvc.1 n hn)
            · intro n hn
              by_cases hne : nd = n
              · subst hne; exact alookupG_minsert_self nd _ _
              · rw [alookupG_minsert_ne n nd _ _ hne]
                rcases List.mem_append.mp hn with hn2 | hn2
                · exact hinvc.2.1 n hn2
                · exact absurd (List.mem_singleton.mp hn2).symm hne
            · intro i a hia b hb
              rcases Nat.lt_trichotomy i stc.order.length with hlt | heq | hgt
              · rw [List.getElem?_append_left hlt] at hia
                rw [List.take_append_of_le_length (Nat.le_of_lt hlt)]
                exact hinvc.2.2 i a hia b hb
              · subst heq
                rw [List.getElem?_concat_length] at hia
                cases hia
                rw [List.take_append_of_le_length (le_refl _), List.take_length]
                have hbs : b ∈ sortStrings (childrenOf deps nd) :=
                  mem_sortStrings.mpr hb
                exact hinvc.1 b (hkids b hbs)
              · rw [List.getElem?_eq_none (by simp; omega)] at hia
                cases hia
            · intro n hn
              by_cases hne : nd = n
              · subst hne; exact alookupG_minsert_self nd _ _
              · rw [alookupG_minsert_ne n nd _ _ hne]
                exact hpersist0 n hn
    refine ⟨nodePart, ?_⟩
    intro cs st st2 h hinv
    cases cs with
    | nil =>
      unfold visitChildren visitGo at h
      cases h
      exact ⟨hinv, fun n hn => hn, by simp⟩
    | cons c rest =>
      unfold visitChildren visitGo at h
      cases hv : visitGo deps fuel (.node c) st with
      | none => rw [hv] at h; cases h
      | some r =>
        cases r with
        | error e => rw [hv] at h; cases h
        | ok stm =>
          rw [hv] at h
          obtain ⟨hinvm, hpm, hcm⟩ := ihN0 c st stm hv hinv
          obtain ⟨hinv2, hp2, hrest⟩ := ihC rest stm st2 h hinvm
          refine ⟨hinv2, fun n hn => hp2 n (hpm n hn), ?_⟩
          intro c2 hc2
          rcases List.mem_cons.mp hc2 with rfl | hc2
          · exact hp2 c2 hcm
          · exact hrest c2 hc2

theorem visitAll_spec (deps : Deps) (fuel : Nat) :
    ∀ (nds : List String) (st st2 : TopoState),
      visitAll deps fuel nds st = some (.ok st2) → TopoInv deps st →
      TopoInv deps st2 := by
  intro nds
  induction nds with
  | nil =>
    intro st st2 h hinv
    unfold visitAll at h
    cases h
    exact hinv
  | cons nd rest ih =>
    intro st st2 h hinv
    unfold visitAll at h
    cases hv : visitNode deps fuel nd st with
    | none => rw [hv] at h; cases h
    | some r =>
      cases r with
      | error e => rw [hv] at h; cases h
      | ok stm =>
        rw [hv] at h
        exact ih stm st2 h ((visit_spec deps fuel).1 nd st stm hv hinv).1

/-- Any order returned by topo_sort is topological for the input map. -/
theorem topo_sort_topoOk (fuel : Nat) (deps : Deps) (order : List String)
    (h : topo_sort fuel deps = some (.ok order)) : TopoOk deps order := by
  unfold topo_sort at h
  cases hv : visitAll deps fuel (sortStrings (deps.map Prod.fst)) ⟨[], [], []⟩ with
  | none => rw [hv] at h; cases h
  | some r =>
    cases r with
    | error e => rw [hv] at h; cases h
    | ok st =>
      rw [hv] at h
      cases h
      have hinv0 : TopoInv deps ⟨[], [], []⟩ := by
        refine ⟨?_, ?_, ?_⟩
        · intro n hn; simp [alookupG] at hn
        · intro n hn; simp at hn
        · intro i a hia; simp at hia
      exact (visitAll_spec deps fuel _ _ st hv hinv0).2.2

/-- The DFS consults the dependency map only through the sorted children
of each node, so two maps with the same sorted children run identically. -/
theorem visitGo_congr (deps1 deps2 : Deps)
    (h : ∀ k, sortStrings (childrenOf deps1 k) = sortStrings (childrenOf deps2 k)) :
    ∀ (fuel : Nat) (task : VisitTask) (st : TopoState),
      visitGo deps1 fuel task st = visitGo deps2 fuel task st := by
  intro fuel
  induction fuel with
  | zero => intro task st; rfl
  | succ fuel ih =>
    intro task st
    cases task with
    | node nd =>
      unfold visitGo
      cases alookupG nd st.marks with
      | none => rw [h nd, ih]
      | some v => cases v <;> rfl
    | nodes cs =>
      cases cs with
      | nil => rfl
      | cons c rest =>
        unfold visitGo
        rw [ih (.node c) st]
        cases visitGo deps2 fuel (.node c) st with
        | none => rfl
        | some r =>
          cases r with
          | error e => rfl
          | ok stm => exact ih (.nodes rest) stm

theorem visitAll_congr (deps1 deps2 : Deps)
    (h : ∀ k, sortStrings (childrenOf deps1 k) = sortStrings (childrenOf deps2 k))
    (fuel : Nat) :
    ∀ (nds : List String) (st : TopoState),
      visitAll deps1 fuel nds st = visitAll deps2 fuel nds st := by
  intro nds
  induction nds with
  | nil => intro st; rfl
  | cons nd rest ih =>
    intro st
    unfold visitAll
    rw [show visitNode deps1 fuel nd st = visitNode deps2 fuel nd st from
      visitGo_congr deps1 deps2 h fuel (.node nd) st]
    cases visitNode deps2 fuel nd st with
    | none => rfl
    | some r =>
      cases r with
      | error e => rfl
      | ok stm => exact ih stm

theorem sortStrings_perm_eq (l1 l2 : List String) (h : l1.Perm l2) :
    sortStrings l1 = sortStrings l2 := by
  unfold sortStrings
  apply List.eq_of_perm_of_sorted (r := strLeP)
  · exact ((List.perm_insertionSort strLeP l1).trans h).trans
      (List.perm_insertionSort strLeP l2).symm
  · exact List.sorted_insertionSort strLeP l1
  · exact List.sorted_insertionSort strLeP l2

/-- C7: the view compilation order returned by topo_sort is topological
(every view appears after everything it references), and it is a function
of the dependency map alone: permuting the key list (HashMap iteration
order) or any child list (HashSet iteration order) does not change the
result, because roots and children are visited in lexicographic order. -/
theorem claim_c7_topo_sort_deterministic :
    (∀ (fuel : Nat) (deps : Deps) (order : List String),
      topo_sort fuel deps = some (.ok order) →
      ∀ (i : Nat) (a : String), order[i]? = some a →
        ∀ b ∈ childrenOf deps a, b ∈ order.take i) ∧
    (∀ (fuel : Nat) (deps1 deps2 : Deps),
      (deps1.map Prod.fst).Perm (deps2.map Prod.fst) →
      (∀ k, (childrenOf deps1 k).Perm (childrenOf deps2 k)) →
      topo_sort fuel deps1 = topo_sort fuel deps2) := by
  constructor
  · intro fuel deps order h
    exact topo_sort_topoOk fuel deps order h
  · intro fuel deps1 deps2 hkeys hch
    have hcs : ∀ k, sortStrings (childrenOf deps1 k) =
        sortStrings (childrenOf deps2 k) :=
      fun k => sortStrings_perm_eq _ _ (hch k)
    unfold topo_sort
    rw [sortStrings_perm_eq _ _ hkeys, visitAll_congr deps1 deps2 hcs fuel]

/-- Concrete run of the C7 theorem: a three-view chain is ordered with
every view after its reference, and permuting both the map entries and a
child list leaves the computed order unchanged. -/
theorem claim_c7_topo_sort_deterministic_witness :
    (∀ b ∈ childrenOf [("C", ["B"]), ("A", []), ("B", ["A"])] "C",
      b ∈ ["A", "B", "C"].take 2) ∧
    topo_sort 9 [("C", ["B", "A"]), ("A", []), ("B", ["A"])] =
      topo_sort 9 [("A", []), ("B", ["A"]), ("C", ["A", "B"])] := by
  constructor
  · exact claim_c7_topo_sort_deterministic.1 9
      [("C", ["B"]), ("A", []), ("B", ["A"])] ["A", "B", "C"]
      rfl 2 "C" rfl
  · apply claim_c7_topo_sort_deterministic.2 9
    · decide
    · intro k
      unfold childrenOf alookupG
      by_cases hc : "C" = k
      · subst hc; decide
      · by_cases ha : "A" = k
        · subst ha; decide
        · by_cases hb : "B" = k
          · subst hb; decide
          · simp [hc, ha, hb, alookupG]

/-! ## Module loader checks (src/template/loader.rs) -/

/-- ComponentRef from template/module.rs (span dropped). -/
structure CompRef where
  name : String
deriving DecidableEq, Repr

/-- ViewStub from template/module.rs, restricted to the fields the
modelled checks consult: the view name and its component references. -/
structure ViewStub where
  name : String
  componentRefs : List CompRef
deriving DecidableEq, Repr

/-- TemplateModule from template/module.rs: file path (an opaque id here)
and the views the file defines. -/
structure TemplateModule where
  path : Nat
  views : List ViewStub
deriving DecidableEq, Repr

/-- The loader errors of the modelled phase, keyed by the error site in
loader.rs (the source formats a message string at each site). -/
inductive LoadError where
  | duplicateView (name : String)
  | unknownComponent (name : String)
  | notDirectlyRequired (name : String) (definingPath : Nat)
  | dependencyCycle (nodes : List String)
deriving DecidableEq, Repr

/-- The view registry: view name to defining module and stub. -/
abbrev ViewLookup := List (String × (TemplateModule × ViewStub))

/-- Registry construction for one module: a name already present is a
duplicate-view error, otherwise the view is recorded. -/
def buildLookupModule (m : TemplateModule) (acc : ViewLookup) :
    List ViewStub → Except LoadError ViewLookup
  | [] => .ok acc
  | v :: rest =>
    match alookup v.name acc with
    | some _ => .error (.duplicateView v.name)
    | none => buildLookupModule m (acc ++ [(v.name, (m, v))]) rest

/-- Registry construction over all modules (loader.rs lines 43-67). -/
def buildViewLookup : List TemplateModule → ViewLookup →
    Except LoadError ViewLookup
  | [], acc => .ok acc
  | m :: rest, acc =>
    match buildLookupModule m acc m.views with
    | .ok acc2 => buildViewLookup rest acc2
    | .error e => .error e

/-- The requires graph: file path to the directly required file paths. -/
abbrev RequiresGraph := List (Nat × List Nat)

/-- Reference check for the refs of one view (loader.rs lines 74-114):
the target must exist in the registry, and the defining file must be the
containing file itself or directly required by it; passing refs join the
dependency set of the view. -/
def checkRefList (lookup : ViewLookup) (graph : RequiresGraph)
    (mpath : Nat) : List CompRef → List String →
    Except LoadError (List String)
  | [], deps => .ok deps
  | ref :: rest, deps =>
    match alookup ref.name lookup with
    | none => .error (.unknownComponent ref.name)
    | some (tm, _) =>
      if mpath = tm.path ∨ tm.path ∈ (alookupG mpath graph).getD [] then
        checkRefList lookup graph mpath rest (insertDep ref.name deps)
      else .error (.notDirectlyRequired ref.name tm.path)

/-- Dependency-map construction over the views of one module. -/
def buildDepsViews (lookup : ViewLookup) (graph : RequiresGraph)
    (mpath : Nat) : List ViewStub → Deps → Except LoadError Deps
  | [], acc => .ok acc
  | v :: rest, acc =>
    match checkRefList lookup graph mpath v.componentRefs [] with
    | .ok names => buildDepsViews lookup graph mpath rest (minsert v.name names acc)
    | .error e => .error e

/-- Dependency-map construction over all modules (loader.rs lines 69-117). -/
def buildDeps (lookup : ViewLookup) (graph : RequiresGraph) :
    List TemplateModule → Deps → Except LoadError Deps
  | [], acc => .ok acc
  | m :: rest, acc =>
    match buildDepsViews lookup graph m.path m.views acc with
    | .ok acc2 => buildDeps lookup graph rest acc2
    | .error e => .error e

/-- Embedding of the post-visit phase of load_ordered_views: registry with
duplicate detection, component-reference checks producing the dependency
map, topological sort (a cycle becomes the circular-dependency error), and
the final ordering of stubs.  Returning Except models the fail-fast
single-error convention of the loader. -/
def load_ordered_views (modules : List TemplateModule)
    (graph : RequiresGraph) (fuel : Nat) :
    Option (Except LoadError (List ViewStub)) :=
  match buildViewLookup modules [] with
  | .error e => some (.error e)
  | .ok lookup =>
    match buildDeps lookup graph modules [] with
    | .error e => some (.error e)
    | .ok deps =>
      match topo_sort fuel deps with
      | none => none
      | some (.error c) => some (.error (.dependencyCycle c.nodes))
      | some (.ok order) =>
        some (.ok (order.filterMap
          (fun nm => (alookup nm lookup).map (fun p => p.2))))

theorem alookup_append_of_some {α : Type} {k : String}
    {acc : List (String × α)} {y : α} (entry : String × α)
    (h : alookup k acc = some y) :
    alookup k (acc ++ [entry]) = some y := by
  induction acc with
  | nil => simp [alookup] at h
  | cons p rest ih =>
    cases p with
    | mk k2 v =>
      simp only [alookup] at h ⊢
      by_cases hp : k2 = k
      · rw [if_pos hp] at h ⊢; exact h
      · rw [if_neg hp] at h ⊢; exact ih h

theorem alookup_append_of_none {α : Type} {k : String}
    {acc : List (String × α)} (k2 : String) (v : α)
    (h : alookup k acc = none) :
    alookup k (acc ++ [(k2, v)]) = if k2 = k then some v else none := by
  induction acc with
  | nil => simp [alookup]
  | cons p rest ih =>
    cases p with
    | mk k3 v3 =>
      simp only [alookup] at h ⊢
      by_cases hp : k3 = k
      · rw [if_pos hp] at h; cases h
      · rw [if_neg hp] at h ⊢; exact ih h

theorem alookup_append_inv {α : Type} {k : String}
    {acc : List (String × α)} {k2 : String} {v x : α}
    (h : alookup k (acc ++ [(k2, v)]) = some x) :
    alookup k acc = some x ∨ (alookup k acc = none ∧ k2 = k ∧ v = x) := by
  cases hacc : alookup k acc with
  | some y =>
    rw [alookup_append_of_some (k2, v) hacc] at h
    exact Or.inl h
  | none =>
    rw [alookup_append_of_none k2 v hacc] at h
    split at h
    next hp => exact Or.inr ⟨rfl, hp, Option.some.inj h⟩
    next hp => cases h

theorem alookup_none_of_append {α : Type} {k : String}
    {acc : List (String × α)} {e : String × α}
    (h : alookup k (acc ++ [e]) = none) : alookup k acc = none := by
  cases hacc : alookup k acc with
  | none => rfl
  | some y => rw [alookup_append_of_some e hacc] at h; cases h

theorem buildLookupModule_spec (m : TemplateModule) :
    ∀ (vs : List ViewStub) (acc acc2 : ViewLookup),
      buildLookupModule m acc vs = .ok acc2 →
      (∀ (name : String) (x : TemplateModule × ViewStub),
        alookup name acc = some x → alookup name acc2 = some x) ∧
      (∀ v ∈ vs, alookup v.name acc = none ∧
        alookup v.name acc2 = some (m, v)) ∧
      (∀ (name : String) (x : TemplateModule × ViewStub),
        alookup name acc2 = some x → alookup name acc = some x ∨
          ∃ v ∈ vs, v.name = name ∧ x = (m, v)) := by
  intro vs
  induction vs with
  | nil =>
    intro acc acc2 h
    unfold buildLookupModule at h
    cases h
    exact ⟨fun _ _ hx => hx, by simp, fun _ _ hx => Or.inl hx⟩
  | cons v rest ih =>
    intro acc acc2 h
    unfold buildLookupModule at h
    cases hl : alookup v.name acc with
    | some x => rw [hl] at h; cases h
    | none =>
      rw [hl] at h
      obtain ⟨pre, hdef, ent⟩ := ih (acc ++ [(v.name, (m, v))]) acc2 h
      have hself : alookup v.name (acc ++ [(v.name, (m, v))]) = some (m, v) := by
        rw [alookup_append_of_none _ _ hl, if_pos rfl]
      refine ⟨?_, ?_, ?_⟩
      · intro name x hx
        exact pre name x (alookup_append_of_some _ hx)
      · intro v2 hv2
        rcases List.mem_cons.mp hv2 with rfl | hv2
        · exact ⟨hl, pre _ _ hself⟩
        · obtain ⟨h1, h2⟩ := hdef v2 hv2
          exact ⟨alookup_none_of_append h1, h2⟩
      · intro name x hx
        rcases ent name x hx with h1 | h1
        · rcases alookup_append_inv h1 with h2 | ⟨_, hk, hv⟩
          · exact Or.inl h2
          · exact Or.inr ⟨v, List.mem_cons_self v rest, hk, hv.symm⟩
        · obtain ⟨v2, hv2, hn, hx2⟩ := h1
          exact Or.inr ⟨v2, List.mem_cons_of_mem v hv2, hn, hx2⟩

theorem buildViewLookup_spec :
    ∀ (ms : List TemplateModule) (acc lookup : ViewLookup),
      buildViewLookup ms acc = .ok lookup →
      (∀ (name : String) (x : TemplateModule × ViewStub),
        alookup name acc = some x → alookup name lookup = some x) ∧
      (∀ m ∈ ms, ∀ v ∈ m.views, alookup v.name lookup = some (m, v)) ∧
      (∀ (name : String) (x : TemplateModule × ViewStub),
        alookup name lookup = some x → alookup name acc = some x ∨
          ∃ m ∈ ms, ∃ v ∈ m.views, v.name = name ∧ x = (m, v)) := by
  intro ms
  induction ms with
  | nil =>
    intro acc lookup h
    unfold buildViewLookup at h
    cases h
    exact ⟨fun _ _ hx => hx, by simp, fun _ _ hx => Or.inl hx⟩
  | cons m rest ih =>
    intro acc lookup h
    unfold buildViewLookup at h
    cases hm : buildLookupModule m acc m.views with
    | error e => rw [hm] at h; cases h
    | ok acc2 =>
      rw [hm] at h
      obtain ⟨pre1, hdef1, ent1⟩ := buildLookupModule_spec m m.views acc acc2 hm
      obtain ⟨pre2, hdef2, ent2⟩ := ih acc2 lookup h
      refine ⟨?_, ?_, ?_⟩
      · intro name x hx
        exact pre2 name x (pre1 name x hx)
      · intro m2 hm2 v hv
        rcases List.mem_cons.mp hm2 with rfl | hm2
        · exact pre2 _ _ (hdef1 v hv).2
        · exact hdef2 m2 hm2 v hv
      · intro name x hx
        rcases ent2 name x hx with h1 | ⟨m2, hm2, v2, hv2, hn, hx2⟩
        · rcases ent1 name x h1 with h2 | ⟨v2, hv2, hn, hx2⟩
          · exact Or.inl h2
          · exact Or.inr ⟨m, List.mem_cons_self m rest, v2, hv2, hn, hx2⟩
        · exact Or.inr ⟨m2, List.mem_cons_of_mem m hm2, v2, hv2, hn, hx2⟩

theorem checkRefList_spec (lookup : ViewLookup) (graph : RequiresGraph)
    (mpath : Nat) :
    ∀ (refs : List CompRef) (deps0 : List String),
      (∃ out, checkRefList lookup graph mpath refs deps0 = .ok out) ↔
      (∀ ref ∈ refs, ∃ tm vj, alookup ref.name lookup = some (tm, vj) ∧
        (mpath = tm.path ∨ tm.path ∈ (alookupG mpath graph).getD [])) := by
  intro refs
  induction refs with
  | nil =>
    intro deps0
    constructor
    · intro _ ref h; simp at h
    · intro _; exact ⟨deps0, rfl⟩
  | cons ref rest ih =>
    intro deps0
    constructor
    · rintro ⟨out, hout⟩
      unfold checkRefList at hout
      cases hl : alookup ref.name lookup with
      | none => rw [hl] at hout; cases hout
      | some p =>
        obtain ⟨tm, vj⟩ := p
        simp only [hl] at hout
        split at hout
        next hcond =>
          intro r hr
          rcases List.mem_cons.mp hr with rfl | hr
          · exact ⟨tm, vj, hl, hcond⟩
          · exact (ih _).mp ⟨out, hout⟩ r hr
        next hcond => cases hout
    · intro hall
      obtain ⟨tm, vj, hl, hcond⟩ := hall ref (List.mem_cons_self _ _)
      obtain ⟨out, hout⟩ := (ih (insertDep ref.name deps0)).mpr
        (fun r hr => hall r (List.mem_cons_of_mem _ hr))
      refine ⟨out, ?_⟩
      unfold checkRefList
      simp only [hl]
      rw [if_pos hcond]
      exact hout

theorem buildDepsViews_spec (lookup : ViewLookup) (graph : RequiresGraph)
    (mpath : Nat) :
    ∀ (vs : List ViewStub) (acc : Deps),
      (∃ out, buildDepsViews lookup graph mpath vs acc = .ok out) ↔
      (∀ v ∈ vs, ∀ ref ∈ v.componentRefs,
        ∃ tm vj, alookup ref.name lookup = some (tm, vj) ∧
          (mpath = tm.path ∨ tm.path ∈ (alookupG mpath graph).getD [])) := by
  intro vs
  induction vs with
  | nil =>
    intro acc
    constructor
    · intro _ v h; simp at h
    · intro _; exact ⟨acc, rfl⟩
  | cons v rest ih =>
    intro acc
    constructor
    · rintro ⟨out, hout⟩
      unfold buildDepsViews at hout
      cases hcr : checkRefList lookup graph mpath v.componentRefs [] with
      | error e => rw [hcr] at hout; cases hout
      | ok names =>
        rw [hcr] at hout
        intro v2 hv2
        rcases List.mem_cons.mp hv2 with rfl | hv2
        · exact (checkRefList_spec lookup graph mpath v2.componentRefs []).mp
            ⟨names, hcr⟩
        · exact (ih _).mp ⟨out, hout⟩ v2 hv2
    · intro hall
      obtain ⟨names, hcr⟩ :=
        (checkRefList_spec lookup graph mpath v.componentRefs []).mpr
          (hall v (List.mem_cons_self _ _))
      obtain ⟨out, hout⟩ := (ih (minsert v.name names acc)).mpr
        (fun v2 hv2 => hall v2 (List.mem_cons_of_mem _ hv2))
      refine ⟨out, ?_⟩
      unfold buildDepsViews
      rw [hcr]
      exact hout

theorem buildDeps_spec (lookup : ViewLookup) (graph : RequiresGraph) :
    ∀ (ms : List TemplateModule) (acc : Deps),
      (∃ out, buildDeps lookup graph ms acc = .ok out) ↔
      (∀ m ∈ ms, ∀ v ∈ m.views, ∀ ref ∈ v.componentRefs,
        ∃ tm vj, alookup ref.name lookup = some (tm, vj) ∧
          (m.path = tm.path ∨ tm.path ∈ (alookupG m.path graph).getD [])) := by
  intro ms
  induction ms with
  | nil =>
    intro acc
    constructor
    · intro _ m h; simp at h
    · intro _; exact ⟨acc, rfl⟩
  | cons m rest ih =>
    intro acc
    constructor
    · rintro ⟨out, hout⟩
      unfold buildDeps at hout
      cases hbv : buildDepsViews lookup graph m.path m.views acc with
      | error e => rw [hbv] at hout; cases hout
      | ok acc2 =>
        rw [hbv] at hout
        intro m2 hm2
        rcases List.mem_cons.mp hm2 with rfl | hm2
        · exact (buildDepsViews_spec lookup graph m2.path m2.views acc).mp
            ⟨acc2, hbv⟩
        · exact (ih _).mp ⟨out, hout⟩ m2 hm2
    · intro hall
      obtain ⟨acc2, hbv⟩ :=
        (buildDepsViews_spec lookup graph m.path m.views acc).mpr
          (hall m (List.mem_cons_self _ _))
      obtain ⟨out, hout⟩ := (ih acc2).mpr
        (fun m2 hm2 => hall m2 (List.mem_cons_of_mem _ hm2))
      refine ⟨out, ?_⟩
      unfold buildDeps
      rw [hbv]
      exact hout

/-- C6: after loading, every ComponentRef of every view must name a view
defined in the compilation set whose defining file is the containing file
itself or one it directly requires; the reference checks succeed exactly
under that condition, and any violation makes the whole loader return the
single error fail-fast.  Direct requirement is checked against the
requires graph only, so transitive reachability does not help. -/
theorem claim_c6_component_ref_check :
    (∀ (modules : List TemplateModule) (graph : RequiresGraph)
        (lookup : ViewLookup),
      buildViewLookup modules [] = .ok lookup →
      ((∃ deps, buildDeps lookup graph modules [] = .ok deps) ↔
        (∀ m ∈ modules, ∀ v ∈ m.views, ∀ ref ∈ v.componentRefs,
          ∃ mj, mj ∈ modules ∧ (∃ vj, vj ∈ mj.views ∧ vj.name = ref.name) ∧
            (mj.path = m.path ∨
              mj.path ∈ (alookupG m.path graph).getD [])))) ∧
    (∀ (modules : List TemplateModule) (graph : RequiresGraph)
        (lookup : ViewLookup) (e : LoadError) (fuel : Nat),
      buildViewLookup modules [] = .ok lookup →
      buildDeps lookup graph modules [] = .error e →
      load_ordered_views modules graph fuel = some (.error e)) := by
  constructor
  · intro modules graph lookup hlk
    obtain ⟨_, hdef, hent⟩ := buildViewLookup_spec modules [] lookup hlk
    rw [buildDeps_spec lookup graph modules []]
    constructor
    · intro hall m hm v hv ref hr
      obtain ⟨tm, vj, hl, hcond⟩ := hall m hm v hv ref hr
      rcases hent ref.name (tm, vj) hl with hemp | ⟨mj, hmj, vj2, hvj2, hn, hx⟩
      · simp [alookup] at hemp
      · cases hx
        refine ⟨tm, hmj, ⟨vj, hvj2, hn⟩, ?_⟩
        rcases hcond with heq | hmem
        · exact Or.inl heq.symm
        · exact Or.inr hmem
    · intro hall m hm v hv ref hr
      obtain ⟨mj, hmj, ⟨vj, hvj, hn⟩, hcond⟩ := hall m hm v hv ref hr
      refine ⟨mj, vj, ?_, ?_⟩
      · rw [← hn]
        exact hdef mj hmj vj hvj
      · rcases hcond with heq | hmem
        · exact Or.inl heq.symm
        · exact Or.inr hmem
  · intro modules graph lookup e fuel hlk hdep
    unfold load_ordered_views
    simp only [hlk, hdep]

/-- Concrete run of the C6 theorem: with files 0 -> 1 -> 2 in the requires
graph and view V3 defined in file 2, a reference to V3 from file 0 is
rejected (transitive reachability is not enough) and the loader returns
that single error; with a direct require of file 2 the same reference
passes the condition. -/
theorem claim_c6_component_ref_check_witness :
    load_ordered_views
      [⟨0, [⟨"V1", [⟨"V3"⟩]⟩]⟩, ⟨1, [⟨"V2", []⟩]⟩, ⟨2, [⟨"V3", []⟩]⟩]
      [(0, [1]), (1, [2]), (2, [])] 9 =
      some (.error (.notDirectlyRequired "V3" 2)) ∧
    (∀ m ∈ ([⟨0, [⟨"V1", [⟨"V3"⟩]⟩]⟩, ⟨1, [⟨"V2", []⟩]⟩,
        ⟨2, [⟨"V3", []⟩]⟩] : List TemplateModule),
      ∀ v ∈ m.views, ∀ ref ∈ v.componentRefs,
      ∃ mj, mj ∈ ([⟨0, [⟨"V1", [⟨"V3"⟩]⟩]⟩, ⟨1, [⟨"V2", []⟩]⟩,
          ⟨2, [⟨"V3", []⟩]⟩] : List TemplateModule) ∧
        (∃ vj, vj ∈ mj.views ∧ vj.name = ref.name) ∧
        (mj.path = m.path ∨
          mj.path ∈ (alookupG m.path [(0, [2]), (1, []), (2, [])]).getD [])) :=
  ⟨claim_c6_component_ref_check.2
      [⟨0, [⟨"V1", [⟨"V3"⟩]⟩]⟩, ⟨1, [⟨"V2", []⟩]⟩, ⟨2, [⟨"V3", []⟩]⟩]
      [(0, [1]), (1, [2]), (2, [])] _ _ 9 rfl rfl,
   (claim_c6_component_ref_check.1
      [⟨0, [⟨"V1", [⟨"V3"⟩]⟩]⟩, ⟨1, [⟨"V2", []⟩]⟩, ⟨2, [⟨"V3", []⟩]⟩]
      [(0, [2]), (1, []), (2, [])] _ rfl).mp ⟨_, rfl⟩⟩

/-! ## Type domain (src/type_system/types.rs) and environment
(src/type_system/environment.rs, src/builtins.rs) -/

/-- FlexMark from types.rs. -/
inductive FlexMark where
  | fresh (id : Nat)
  | named (name : String)
deriving DecidableEq, Repr

/-- Type from types.rs.  Var and Record carry point indices into the type
and row stores (reference equality of points becomes index equality);
DiscriminatedUnion is a BTreeMap kept as a key-sorted list; Fun is spelled
func. -/
inductive Ty where
  | prim (name : String)
  | func (args : List Ty) (ret : Ty)
  | array (elem : Ty)
  | var (p : Nat)
  | record (r : Nat)
  | du (branches : List (String × Nat))

/-- Descriptor from types.rs. -/
inductive Desc where
  | unbound (mark : FlexMark)
  | bound (ty : Ty)

/-- RowDescriptor from types.rs; the field map is a key-sorted list. -/
inductive RowDesc where
  | rowExtend (fields : List (String × Ty)) (tail : Nat)
  | rowFlex (mark : FlexMark)

/-- The two union-find stores.  The InferContext id counters coincide with
the store lengths because every allocation appends a fresh index. -/
structure SolverState where
  ts : UFStore Desc
  rs : UFStore RowDesc

/-- fresh_point in environment.rs. -/
def fresh_point (s : SolverState) : Nat × SolverState :=
  (s.ts.length,
    { s with ts := s.ts ++ [UFNode.info 0 (Desc.unbound (FlexMark.fresh s.ts.length))] })

/-- fresh_descriptor in environment.rs. -/
def fresh_descriptor (s : SolverState) (d : Desc) : Nat × SolverState :=
  (s.ts.length, { s with ts := s.ts ++ [UFNode.info 0 d] })

/-- fresh_named in environment.rs. -/
def fresh_named (s : SolverState) (name : String) : Nat × SolverState :=
  fresh_descriptor s (Desc.unbound (FlexMark.named name))

/-- fresh_row_point in environment.rs. -/
def fresh_row_point (s : SolverState) : Nat × SolverState :=
  (s.rs.length,
    { s with rs := s.rs ++ [UFNode.info 0 (RowDesc.rowFlex (FlexMark.fresh s.rs.length))] })

/-- fresh_row_extend in environment.rs. -/
def fresh_row_extend (s : SolverState) (fields : List (String × Ty))
    (ext : Nat) : Nat × SolverState :=
  (s.rs.length, { s with rs := s.rs ++ [UFNode.info 0 (RowDesc.rowExtend fields ext)] })

/-- BuiltinType from builtins.rs. -/
inductive BuiltinType where
  | prim (name : String)
  | var (id : Nat)
deriving DecidableEq, Repr

/-- The BUILTINS table from builtins.rs (a HashMap, observed by key). -/
def BUILTINS : List (String × (List BuiltinType × BuiltinType)) :=
  [("numberToString", ([.prim "number"], .prim "string")),
   ("boolean", ([.prim "boolean", .var 0, .var 0], .var 0)),
   ("lookup", ([.var 0, .prim "string", .var 1], .var 1))]

/-- The builtin names used by expr_dependencies are the BUILTINS keys. -/
theorem builtinNames_eq_keys : builtinNames = BUILTINS.map Prod.fst := rfl

/-- Env from environment.rs: lexical scopes (the Vec with push at the end
and reverse-order search becomes a list searched head first) and the
globals map. -/
structure Env where
  scopes : List (List (String × Ty))
  globals : List (String × Ty)

/-- instantiate in environment.rs for builtin schemes: one fresh point per
scheme-variable id, shared across occurrences through the vars map. -/
def instantiateB : BuiltinType → List (Nat × Nat) → SolverState →
    Ty × List (Nat × Nat) × SolverState
  | .prim n, vars, s => (.prim n, vars, s)
  | .var id, vars, s =>
    match alookupG id vars with
    | some p => (.var p, vars, s)
    | none =>
      (.var (fresh_point s).1, (id, (fresh_point s).1) :: vars, (fresh_point s).2)

/-- instantiate mapped over the argument list of a builtin scheme. -/
def instantiateBList : List BuiltinType → List (Nat × Nat) → SolverState →
    List Ty × List (Nat × Nat) × SolverState
  | [], vars, s => ([], vars, s)
  | b :: rest, vars, s =>
    match instantiateB b vars s with
    | (t, vars2, s2) =>
      match instantiateBList rest vars2 s2 with
      | (ts2, vars3, s3) => (t :: ts2, vars3, s3)

/-- get_builtin in environment.rs: instantiate the scheme and allocate a
point bound to the resulting function type. -/
def get_builtin (s : SolverState) (name : String) :
    Option (Nat × SolverState) :=
  match alookup name BUILTINS with
  | none => none
  | some (args, ret) =>
    match instantiateBList args [] s with
    | (targs, vars2, s2) =>
      match instantiateB ret vars2 s2 with
      | (tret, _, s3) =>
        some (fresh_descriptor s3 (Desc.bound (Ty.func targs tret)))

/-- The scope-stack search loop of Env::get, topmost scope first. -/
def findScope (name : String) : List (List (String × Ty)) → Option Ty
  | [] => none
  | sc :: rest =>
    match alookup name sc with
    | some ty => some ty
    | none => findScope name rest

/-- Embedding of Env::get in environment.rs: scopes top-down, then
globals, then builtins, else a fresh variable named after the identifier,
inserted into globals. -/
def envGet (env : Env) (s : SolverState) (name : String) :
    Ty × Env × SolverState :=
  match findScope name env.scopes with
  | some ty => (ty, env, s)
  | none =>
    match alookup name env.globals with
    | some ty => (ty, env, s)
    | none =>
      match get_builtin s name with
      | some (p, s2) => (Ty.var p, env, s2)
      | none =>
        (Ty.var (fresh_named s name).1,
          { env with globals :=
            (name, Ty.var (fresh_named s name).1) :: env.globals },
          (fresh_named s name).2)

theorem instantiateB_ts_len (b : BuiltinType) (vars : List (Nat × Nat))
    (s : SolverState) :
    s.ts.length ≤ (instantiateB b vars s).2.2.ts.length := by
  cases b with
  | prim n => exact le_refl _
  | var id =>
    unfold instantiateB
    cases h : alookupG id vars with
    | some p => simp [h]
    | none => simp [h, fresh_point]

theorem instantiateBList_ts_len (bs : List BuiltinType) :
    ∀ (vars : List (Nat × Nat)) (s : SolverState),
      s.ts.length ≤ (instantiateBList bs vars s).2.2.ts.length := by
  induction bs with
  | nil => intro vars s; exact le_refl _
  | cons b rest ih =>
    intro vars s
    unfold instantiateBList
    rcases h1 : instantiateB b vars s with ⟨t, vars2, s2⟩
    rcases h2 : instantiateBList rest vars2 s2 with ⟨ts3, vars3, s3⟩
    simp only [h1, h2]
    have t1 := instantiateB_ts_len b vars s
    rw [h1] at t1
    have t2 := ih vars2 s2
    rw [h2] at t2
    exact le_trans t1 t2

/-- get_builtin allocates the returned point last: its index is at least
the incoming counter and the resulting store ends right after it, and the
point is bound to a function type. -/
theorem get_builtin_spec (s : SolverState) (name : String)
    (args : List BuiltinType) (ret : BuiltinType)
    (h : alookup name BUILTINS = some (args, ret)) :
    ∃ p s2, get_builtin s name = some (p, s2) ∧
      s.ts.length ≤ p ∧ s2.ts.length = p + 1 ∧
      ∃ targs tret,
        s2.ts[p]? = some (UFNode.info 0 (Desc.bound (Ty.func targs tret))) := by
  unfold get_builtin
  rw [h]
  rcases h1 : instantiateBList args [] s with ⟨targs, vars2, s2⟩
  rcases h2 : instantiateB ret vars2 s2 with ⟨tret, vars3, s3⟩
  simp only [h1, h2]
  have t1 := instantiateBList_ts_len args [] s
  rw [h1] at t1
  have t2 := instantiateB_ts_len ret vars2 s2
  rw [h2] at t2
  refine ⟨s3.ts.length, _, rfl, le_trans t1 t2,
    by simp [fresh_descriptor], targs, tret, ?_⟩
  simp only [fresh_descriptor]
  rw [List.getElem?_append_right (le_refl _)]
  simp

theorem findScope_eq_none (name : String) :
    ∀ scopes : List (List (String × Ty)),
      (∀ sc ∈ scopes, alookup name sc = none) →
      findScope name scopes = none := by
  intro scopes h
  induction scopes with
  | nil => rfl
  | cons sc rest ih =>
    unfold findScope
    rw [h sc (List.mem_cons_self _ _)]
    exact ih (fun sc2 hsc2 => h sc2 (List.mem_cons_of_mem _ hsc2))

/-- C5: Env::get resolves in exactly this order: the topmost lexical scope
binding the name wins; otherwise globals; otherwise a builtin name gets a
fresh instantiation of its scheme (with one fresh point per scheme
variable, shared across that variable's occurrences, exhibited on the
boolean and lookup schemes); otherwise a fresh unbound variable named
after the identifier is allocated, inserted into globals and returned. -/
theorem claim_c5_env_get_resolution :
    (∀ (env : Env) (s : SolverState) (name : String)
      (sc : List (String × Ty)) (rest : List (List (String × Ty))) (ty : Ty),
      env.scopes = sc :: rest → alookup name sc = some ty →
      envGet env s name = (ty, env, s)) ∧
    (∀ (env : Env) (s : SolverState) (name : String) (ty : Ty),
      (∀ sc ∈ env.scopes, alookup name sc = none) →
      alookup name env.globals = some ty →
      envGet env s name = (ty, env, s)) ∧
    (∀ (env : Env) (s : SolverState) (name : String)
      (args : List BuiltinType) (ret : BuiltinType),
      (∀ sc ∈ env.scopes, alookup name sc = none) →
      alookup name env.globals = none →
      alookup name BUILTINS = some (args, ret) →
      ∃ p s2, envGet env s name = (Ty.var p, env, s2) ∧
        s.ts.length ≤ p ∧
        ∃ targs tret,
          s2.ts[p]? = some (UFNode.info 0 (Desc.bound (Ty.func targs tret)))) ∧
    (envGet ⟨[], []⟩ ⟨[], []⟩ "boolean" =
      (Ty.var 1, ⟨[], []⟩,
        ⟨[UFNode.info 0 (Desc.unbound (FlexMark.fresh 0)),
          UFNode.info 0 (Desc.bound (Ty.func
            [Ty.prim "boolean", Ty.var 0, Ty.var 0] (Ty.var 0)))], []⟩)) ∧
    (envGet ⟨[], []⟩ ⟨[], []⟩ "lookup" =
      (Ty.var 2, ⟨[], []⟩,
        ⟨[UFNode.info 0 (Desc.unbound (FlexMark.fresh 0)),
          UFNode.info 0 (Desc.unbound (FlexMark.fresh 1)),
          UFNode.info 0 (Desc.bound (Ty.func
            [Ty.var 0, Ty.prim "string", Ty.var 1] (Ty.var 1)))], []⟩)) ∧
    (∀ (env : Env) (s : SolverState) (name : String),
      (∀ sc ∈ env.scopes, alookup name sc = none) →
      alookup name env.globals = none →
      alookup name BUILTINS = none →
      envGet env s name =
        (Ty.var s.ts.length,
          { env with globals := (name, Ty.var s.ts.length) :: env.globals },
          { s with ts := s.ts ++
            [UFNode.info 0 (Desc.unbound (FlexMark.named name))] })) := by
  refine ⟨?_, ?_, ?_, rfl, rfl, ?_⟩
  · intro env s name sc rest ty hsc hl
    unfold envGet findScope
    rw [hsc]
    simp only [hl]
  · intro env s name ty hscopes hg
    unfold envGet
    rw [findScope_eq_none name env.scopes hscopes, hg]
  · intro env s name args ret hscopes hg hb
    obtain ⟨p, s2, hgb, hle, _, targs, tret, hentry⟩ :=
      get_builtin_spec s name args ret hb
    refine ⟨p, s2, ?_, hle, targs, tret, hentry⟩
    unfold envGet
    rw [findScope_eq_none name env.scopes hscopes, hg, hgb]
  · intro env s name hscopes hg hb
    unfold envGet
    rw [findScope_eq_none name env.scopes hscopes, hg]
    unfold get_builtin
    rw [hb]
    rfl

/-- Concrete runs of the C5 theorem: a scope binding wins over globals; a
global is returned unchanged; the builtin case returns a function-bound
point; an unknown name materialises a named global. -/
theorem claim_c5_env_get_resolution_witness :
    envGet ⟨[[("x", Ty.prim "number")]], [("x", Ty.prim "string")]⟩
      ⟨[], []⟩ "x" =
      (Ty.prim "number",
        ⟨[[("x", Ty.prim "number")]], [("x", Ty.prim "string")]⟩, ⟨[], []⟩) ∧
    envGet ⟨[[("y", Ty.prim "number")]], [("x", Ty.prim "string")]⟩
      ⟨[], []⟩ "x" =
      (Ty.prim "string",
        ⟨[[("y", Ty.prim "number")]], [("x", Ty.prim "string")]⟩, ⟨[], []⟩) ∧
    (∃ p s2, envGet ⟨[], []⟩ ⟨[], []⟩ "numberToString" =
      (Ty.var p, ⟨[], []⟩, s2) ∧ 0 ≤ p ∧
      ∃ targs tret,
        s2.ts[p]? = some (UFNode.info 0 (Desc.bound (Ty.func targs tret)))) ∧
    envGet ⟨[], []⟩ ⟨[], []⟩ "title" =
      (Ty.var 0, ⟨[], [("title", Ty.var 0)]⟩,
        ⟨[UFNode.info 0 (Desc.unbound (FlexMark.named "title"))], []⟩) :=
  ⟨claim_c5_env_get_resolution.1
      ⟨[[("x", Ty.prim "number")]], [("x", Ty.prim "string")]⟩ ⟨[], []⟩
      "x" [("x", Ty.prim "number")] [] (Ty.prim "number") rfl rfl,
   claim_c5_env_get_resolution.2.1
      ⟨[[("y", Ty.prim "number")]], [("x", Ty.prim "string")]⟩ ⟨[], []⟩
      "x" (Ty.prim "string")
      (by intro sc hsc
          simp only [List.mem_singleton] at hsc
          subst hsc
          rfl) rfl,
   by
    obtain ⟨p, s2, h1, _, h3⟩ := claim_c5_env_get_resolution.2.2.1
      ⟨[], []⟩ ⟨[], []⟩ "numberToString" [.prim "number"] (.prim "string")
      (by intro sc hsc; exact absurd hsc (List.not_mem_nil sc)) rfl rfl
    exact ⟨p, s2, h1, Nat.zero_le p, h3⟩,
   claim_c5_env_get_resolution.2.2.2.2.2 ⟨[], []⟩ ⟨[], []⟩ "title"
      (by intro sc hsc; exact absurd hsc (List.not_mem_nil sc)) rfl rfl⟩

/-- C10: a builtin lookup that is not shadowed by any lexical scope and is
absent from globals returns a freshly allocated function-bound point and
leaves the environment (in particular the globals map, which becomes the
view input record) unchanged, and a second lookup of the same builtin
allocates an independent fresh point. -/
theorem claim_c10_builtin_lookup_frame (env : Env) (s : SolverState)
    (name : String) (args : List BuiltinType) (ret : BuiltinType)
    (hscopes : ∀ sc ∈ env.scopes, alookup name sc = none)
    (hg : alookup name env.globals = none)
    (hb : alookup name BUILTINS = some (args, ret)) :
    ∃ p s2 p2 s3,
      envGet env s name = (Ty.var p, env, s2) ∧
      (∃ targs tret, s2.ts[p]? =
        some (UFNode.info 0 (Desc.bound (Ty.func targs tret)))) ∧
      envGet env s2 name = (Ty.var p2, env, s3) ∧
      p2 ≠ p := by
  obtain ⟨p, s2, hgb, hle, hlen, targs, tret, hentry⟩ :=
    get_builtin_spec s name args ret hb
  obtain ⟨p2, s3, hgb2, hle2, _, _, _, _⟩ :=
    get_builtin_spec s2 name args ret hb
  refine ⟨p, s2, p2, s3, ?_, ⟨targs, tret, hentry⟩, ?_, ?_⟩
  · unfold envGet
    rw [findScope_eq_none name env.scopes hscopes, hg, hgb]
  · unfold envGet
    rw [findScope_eq_none name env.scopes hscopes, hg, hgb2]
  · omega

/-- Concrete run of the C10 theorem: two successive lookups of the boolean
builtin in an empty environment return distinct fresh points and leave the
environment empty. -/
theorem claim_c10_builtin_lookup_frame_witness :
    ∃ p s2 p2 s3,
      envGet ⟨[], []⟩ ⟨[], []⟩ "boolean" = (Ty.var p, ⟨[], []⟩, s2) ∧
      (∃ targs tret, s2.ts[p]? =
        some (UFNode.info 0 (Desc.bound (Ty.func targs tret)))) ∧
      envGet ⟨[], []⟩ s2 "boolean" = (Ty.var p2, ⟨[], []⟩, s3) ∧
      p2 ≠ p :=
  claim_c10_builtin_lookup_frame ⟨[], []⟩ ⟨[], []⟩ "boolean"
    [.prim "boolean", .var 0, .var 0] (.var 0)
    (by intro sc hsc; exact absurd hsc (List.not_mem_nil sc)) rfl rfl

/-! ## Constraint solver (src/type_system/solver.rs)

Every recursive walk takes explicit fuel, decremented on each call, so
that the whole family is structurally recursive and concrete runs reduce
in the kernel.  Spans are dropped from errors: the source threads one
constant span through a unification, and no claim concerns it. -/

/-- TypeError from solver.rs, without spans. -/
inductive TypeError where
  | primMismatch (expected actual : String)
  | arityMismatch (expected actual : Nat)
  | structMismatch (expected actual : Ty)
  | occursCheck (ty : Ty)
  | rowMismatch (message : String)
  | unionKeyMismatch (expected actual : List String)

/-- get on a type point, threading the whole solver state. -/
def getTy (fuel : Nat) (s : SolverState) (p : Nat) :
    Option (Desc × SolverState) :=
  match ufGet fuel s.ts p with
  | none => none
  | some (d, ts2) => some (d, { s with ts := ts2 })

/-- get_row in solver.rs, threading the whole solver state. -/
def getRow (fuel : Nat) (s : SolverState) (r : Nat) :
    Option (RowDesc × SolverState) :=
  match ufGet fuel s.rs r with
  | none => none
  | some (d, rs2) => some (d, { s with rs := rs2 })

/-- BTreeMap insert on a key-sorted association list. -/
def btInsert (k : String) (v : Ty) : List (String × Ty) → List (String × Ty)
  | [] => [(k, v)]
  | (k2, v2) :: rest =>
    if k = k2 then (k, v) :: rest
    else if charListLe k.data k2.data then (k, v) :: (k2, v2) :: rest
    else (k2, v2) :: btInsert k v rest

/-- BTreeMap entry(k).or_insert(v): insert only when the key is absent. -/
def btOrInsert (k : String) (v : Ty) (m : List (String × Ty)) :
    List (String × Ty) :=
  match alookup k m with
  | some _ => m
  | none => btInsert k v m

/-- BTreeMap remove (keys are unique). -/
def btRemove (k : String) : List (String × Ty) → List (String × Ty)
  | [] => []
  | (k2, v2) :: rest => if k2 = k then rest else (k2, v2) :: btRemove k rest

/-- or_insert over a whole field map, earlier entries taking precedence. -/
def orInsertAll : List (String × Ty) → List (String × Ty) →
    List (String × Ty)
  | fields, [] => fields
  | fields, (k, v) :: rest => orInsertAll (btOrInsert k v fields) rest

/-- merge_marks in solver.rs: Named wins, first Named first. -/
def merge_marks : FlexMark → FlexMark → FlexMark
  | .named name, _ => .named name
  | .fresh _, .named name => .named name
  | .fresh id, .fresh _ => .fresh id

mutual
/-- Embedding of canonical_type in solver.rs: dereference bound variables
and rebuild records and unions over canonical rows. -/
def canonicalType : Nat → SolverState → Ty → Option (Ty × SolverState)
  | 0, _, _ => none
  | fuel+1, s, t =>
    match t with
    | .prim n => some (.prim n, s)
    | .func args res =>
      match canonicalTypeList fuel s args with
      | none => none
      | some (args2, s2) =>
        match canonicalType fuel s2 res with
        | none => none
        | some (res2, s3) => some (.func args2 res2, s3)
    | .array elem =>
      match canonicalType fuel s elem with
      | none => none
      | some (e2, s2) => some (.array e2, s2)
    | .var p =>
      match getTy fuel s p with
      | none => none
      | some (.bound b, s2) => canonicalType fuel s2 b
      | some (.unbound _, s2) => some (.var p, s2)
    | .record rp =>
      match canonicalRowPoint fuel s rp with
      | none => none
      | some (r2, s2) => some (.record r2, s2)
    | .du branches =>
      match canonicalBranches fuel s branches with
      | none => none
      | some (bs2, s2) => some (.du bs2, s2)

/-- canonical_type mapped over an argument list. -/
def canonicalTypeList : Nat → SolverState → List Ty →
    Option (List Ty × SolverState)
  | 0, _, _ => none
  | _+1, s, [] => some ([], s)
  | fuel+1, s, t :: rest =>
    match canonicalType fuel s t with
    | none => none
    | some (t2, s2) =>
      match canonicalTypeList fuel s2 rest with
      | none => none
      | some (rest2, s3) => some (t2 :: rest2, s3)

/-- canonical_type mapped over a field map (keys unchanged, so the sorted
order is preserved, as with the BTreeMap rebuild in the source). -/
def canonicalFields : Nat → SolverState → List (String × Ty) →
    Option (List (String × Ty) × SolverState)
  | 0, _, _ => none
  | _+1, s, [] => some ([], s)
  | fuel+1, s, (k, t) :: rest =>
    match canonicalType fuel s t with
    | none => none
    | some (t2, s2) =>
      match canonicalFields fuel s2 rest with
      | none => none
      | some (rest2, s3) => some ((k, t2) :: rest2, s3)

/-- canonical_row_point mapped over union branches. -/
def canonicalBranches : Nat → SolverState → List (String × Nat) →
    Option (List (String × Nat) × SolverState)
  | 0, _, _ => none
  | _+1, s, [] => some ([], s)
  | fuel+1, s, (k, rp) :: rest =>
    match canonicalRowPoint fuel s rp with
    | none => none
    | some (r2, s2) =>
      match canonicalBranches fuel s2 rest with
      | none => none
      | some (rest2, s3) => some ((k, r2) :: rest2, s3)

/-- Embedding of canonical_row_point in solver.rs: a flex row is returned
as is; an extension is rebuilt with canonical fields and tail as a
brand-new point (uf::fresh reuses the id but creates a new cell, and
identity is reference equality, so the embedding allocates a new index). -/
def canonicalRowPoint : Nat → SolverState → Nat → Option (Nat × SolverState)
  | 0, _, _ => none
  | fuel+1, s, rp =>
    match getRow fuel s rp with
    | none => none
    | some (.rowFlex _, s2) => some (rp, s2)
    | some (.rowExtend fields tail, s2) =>
      match canonicalFields fuel s2 fields with
      | none => none
      | some (fields2, s3) =>
        match canonicalRowPoint fuel s3 tail with
        | none => none
        | some (tail2, s4) =>
          some (s4.rs.length,
            { s4 with rs := s4.rs ++
              [UFNode.info 0 (RowDesc.rowExtend fields2 tail2)] })
end

mutual
/-- Embedding of occurs in solver.rs: does the type point occur in the
canonical form of the type. -/
def occurs : Nat → SolverState → Nat → Ty → Option (Bool × SolverState)
  | 0, _, _, _ => none
  | fuel+1, s, point, ty =>
    match canonicalType fuel s ty with
    | none => none
    | some (t2, s2) =>
      match t2 with
      | .var p => some (decide (p = point), s2)
      | .prim _ => some (false, s2)
      | .func args res =>
        match occursList fuel s2 point args with
        | none => none
        | some (true, s3) => some (true, s3)
        | some (false, s3) => occurs fuel s3 point res
      | .array elem => occurs fuel s2 point elem
      | .record rp => occursInRow fuel s2 point rp
      | .du branches => occursBranches fuel s2 point branches

termination_by structural fuel _ _ _ => fuel

/-- The argument loop of occurs, with early exit on the first hit. -/
def occursList : Nat → SolverState → Nat → List Ty →
    Option (Bool × SolverState)
  | 0, _, _, _ => none
  | _+1, s, _, [] => some (false, s)
  | fuel+1, s, point, t :: rest =>
    match occurs fuel s point t with
    | none => none
    | some (true, s2) => some (true, s2)
    | some (false, s2) => occursList fuel s2 point rest

termination_by structural fuel _ _ _ => fuel

/-- Embedding of occurs_in_row in solver.rs. -/
def occursInRow : Nat → SolverState → Nat → Nat → Option (Bool × SolverState)
  | 0, _, _, _ => none
  | fuel+1, s, point, rowPoint =>
    match getRow fuel s rowPoint with
    | none => none
    | some (.rowFlex _, s2) => some (false, s2)
    | some (.rowExtend fields tail, s2) =>
      match occursFieldVals fuel s2 point fields with
      | none => none
      | some (true, s3) => some (true, s3)
      | some (false, s3) => occursInRow fuel s3 point tail

termination_by structural fuel _ _ _ => fuel

/-- The field loop of occurs_in_row. -/
def occursFieldVals : Nat → SolverState → Nat → List (String × Ty) →
    Option (Bool × SolverState)
  | 0, _, _, _ => none
  | _+1, s, _, [] => some (false, s)
  | fuel+1, s, point, (_, t) :: rest =>
    match occurs fuel s point t with
    | none => none
    | some (true, s2) => some (true, s2)
    | some (false, s2) => occursFieldVals fuel s2 point rest

termination_by structural fuel _ _ _ => fuel

/-- The branch loop of occurs on discriminated unions. -/
def occursBranches : Nat → SolverState → Nat → List (String × Nat) →
    Option (Bool × SolverState)
  | 0, _, _, _ => none
  | _+1, s, _, [] => some (false, s)
  | fuel+1, s, point, (_, rp) :: rest =>
    match occursInRow fuel s point rp with
    | none => none
    | some (true, s2) => some (true, s2)
    | some (false, s2) => occursBranches fuel s2 point rest
termination_by structural fuel _ _ _ => fuel

end

/-- Embedding of gather_fields in solver.rs: walk the RowExtend chain,
or-inserting fields (existing, outer fields take precedence), until a
flex tail is reached. -/
def gather_fields : Nat → SolverState → List (String × Ty) → Nat →
    Option ((List (String × Ty) × Nat) × SolverState)
  | 0, _, _, _ => none
  | fuel+1, s, fields, current =>
    match getRow fuel s current with
    | none => none
    | some (.rowExtend subFields subExt, s2) =>
      gather_fields fuel s2 (orInsertAll fields subFields) subExt
    | some (.rowFlex _, s2) => some ((fields, current), s2)

mutual
/-- Embedding of occurs_row_check in solver.rs: does the row point occur
in the descriptor, through field types and along the tail chain. -/
def occurs_row_check : Nat → SolverState → Nat → RowDesc →
    Option (Bool × SolverState)
  | 0, _, _, _ => none
  | fuel+1, s, rowPoint, desc =>
    match desc with
    | .rowFlex _ => some (false, s)
    | .rowExtend fields tail =>
      match occursRowFields fuel s rowPoint fields with
      | none => none
      | some (true, s2) => some (true, s2)
      | some (false, s2) =>
        if tail = rowPoint then some (true, s2)
        else
          match getRow fuel s2 tail with
          | none => none
          | some (tailDesc, s3) => occurs_row_check fuel s3 rowPoint tailDesc

termination_by structural fuel _ _ _ => fuel

/-- The field loop of occurs_row_check. -/
def occursRowFields : Nat → SolverState → Nat → List (String × Ty) →
    Option (Bool × SolverState)
  | 0, _, _, _ => none
  | _+1, s, _, [] => some (false, s)
  | fuel+1, s, rowPoint, (_, t) :: rest =>
    match occurs_in_row_type fuel s rowPoint t with
    | none => none
    | some (true, s2) => some (true, s2)
    | some (false, s2) => occursRowFields fuel s2 rowPoint rest

termination_by structural fuel _ _ _ => fuel

/-- Embedding of occurs_in_row_type in solver.rs: search nested Record and
DiscriminatedUnion types for the row point. -/
def occurs_in_row_type : Nat → SolverState → Nat → Ty →
    Option (Bool × SolverState)
  | 0, _, _, _ => none
  | fuel+1, s, rowPoint, ty =>
    match ty with
    | .var _ => some (false, s)
    | .prim _ => some (false, s)
    | .func args res =>
      match occursRowTyList fuel s rowPoint args with
      | none => none
      | some (true, s2) => some (true, s2)
      | some (false, s2) => occurs_in_row_type fuel s2 rowPoint res
    | .array elem => occurs_in_row_type fuel s rowPoint elem
    | .record rp =>
      if rp = rowPoint then some (true, s)
      else
        match getRow fuel s rp with
        | none => none
        | some (desc, s2) => occurs_row_check fuel s2 rowPoint desc
    | .du branches => occursRowBranches fuel s rowPoint branches

termination_by structural fuel _ _ _ => fuel

/-- The argument loop of occurs_in_row_type. -/
def occursRowTyList : Nat → SolverState → Nat → List Ty →
    Option (Bool × SolverState)
  | 0, _, _, _ => none
  | _+1, s, _, [] => some (false, s)
  | fuel+1, s, rowPoint, t :: rest =>
    match occurs_in_row_type fuel s rowPoint t with
    | none => none
    | some (true, s2) => some (true, s2)
    | some (false, s2) => occursRowTyList fuel s2 rowPoint rest

termination_by structural fuel _ _ _ => fuel

/-- The branch loop of occurs_in_row_type on unions. -/
def occursRowBranches : Nat → SolverState → Nat → List (String × Nat) →
    Option (Bool × SolverState)
  | 0, _, _, _ => none
  | _+1, s, _, [] => some (false, s)
  | fuel+1, s, rowPoint, (_, rp) :: rest =>
    if rp = rowPoint then some (true, s)
    else
      match getRow fuel s rp with
      | none => none
      | some (desc, s2) =>
        match occurs_row_check fuel s2 rowPoint desc with
        | none => none
        | some (true, s3) => some (true, s3)
        | some (false, s3) => occursRowBranches fuel s3 rowPoint rest
termination_by structural fuel _ _ _ => fuel

end

/-- The RowFlex-versus-non-flex body of unify_rows: run the row-occurs
check on both argument points against the non-flex descriptor, fail with
RowMismatch on a hit, and otherwise union the points adopting the
descriptor. -/
def rowFlexCase : Nat → SolverState → Nat → Nat → RowDesc →
    Option (Except TypeError SolverState)
  | 0, _, _, _, _ => none
  | fuel+1, s, r1, r2, desc =>
    match occurs_row_check fuel s r1 desc with
    | none => none
    | some (true, _) => some (.error (.rowMismatch "occurs check failed"))
    | some (false, s1) =>
      match occurs_row_check fuel s1 r2 desc with
      | none => none
      | some (true, _) => some (.error (.rowMismatch "occurs check failed"))
      | some (false, s2) =>
        match ufUnion fuel s2.rs r1 r2 desc with
        | none => none
        | some rs2 => some (.ok { s2 with rs := rs2 })

mutual
/-- Embedding of unify in solver.rs: canonicalise both sides, then match
variants in the source order. -/
def unify : Nat → SolverState → Ty → Ty → Option (Except TypeError SolverState)
  | 0, _, _, _ => none
  | fuel+1, s, t1, t2 =>
    match canonicalType fuel s t1 with
    | none => none
    | some (c1, s1) =>
      match canonicalType fuel s1 t2 with
      | none => none
      | some (c2, s2) =>
        match c1, c2 with
        | .var p1, .var p2 => unify_points fuel s2 p1 p2
        | .var p, ty => bind_variable fuel s2 p ty
        | ty, .var p => bind_variable fuel s2 p ty
        | .func args1 res1, .func args2 res2 =>
          if args1.length ≠ args2.length then
            some (.error (.arityMismatch args2.length args1.length))
          else
            match unifyList fuel s2 args1 args2 with
            | none => none
            | some (.error e) => some (.error e)
            | some (.ok s3) => unify fuel s3 res1 res2
        | .array e1, .array e2 => unify fuel s2 e1 e2
        | .prim p1, .prim p2 =>
          if p1 = p2 then some (.ok s2)
          else some (.error (.primMismatch p2 p1))
        | .record r1, .record r2 => unify_rows fuel s2 r1 r2
        | .du m1, .du m2 =>
          if m1.map Prod.fst = m2.map Prod.fst then unifyDU fuel s2 m1 m2
          else some (.error (.unionKeyMismatch (m2.map Prod.fst)
            (m1.map Prod.fst)))
        | left, right => some (.error (.structMismatch right left))

termination_by structural fuel _ _ _ => fuel

/-- The zipped argument loop of unify on function types. -/
def unifyList : Nat → SolverState → List Ty → List Ty →
    Option (Except TypeError SolverState)
  | 0, _, _, _ => none
  | _+1, s, [], _ => some (.ok s)
  | _+1, s, _ :: _, [] => some (.ok s)
  | fuel+1, s, a1 :: r1, a2 :: r2 =>
    match unify fuel s a1 a2 with
    | none => none
    | some (.error e) => some (.error e)
    | some (.ok s2) => unifyList fuel s2 r1 r2

termination_by structural fuel _ _ _ => fuel

/-- Embedding of unify_points in solver.rs. -/
def unify_points : Nat → SolverState → Nat → Nat →
    Option (Except TypeError SolverState)
  | 0, _, _, _ => none
  | fuel+1, s, p1, p2 =>
    if p1 = p2 then some (.ok s)
    else
      match getTy fuel s p1 with
      | none => none
      | some (desc1, s1) =>
        match getTy fuel s1 p2 with
        | none => none
        | some (desc2, s2) =>
          match desc1, desc2 with
          | .bound b, _ => unify fuel s2 b (.var p2)
          | .unbound _, .bound b => unify fuel s2 (.var p1) b
          | .unbound mark1, .unbound mark2 =>
            match ufUnion fuel s2.ts p1 p2
                (Desc.unbound (merge_marks mark1 mark2)) with
            | none => none
            | some ts2 => some (.ok { s2 with ts := ts2 })

termination_by structural fuel _ _ _ => fuel

/-- Embedding of bind_variable in solver.rs: canonicalise, occurs-check,
then set the point to the bound type. -/
def bind_variable : Nat → SolverState → Nat → Ty →
    Option (Except TypeError SolverState)
  | 0, _, _, _ => none
  | fuel+1, s, point, ty =>
    match canonicalType fuel s ty with
    | none => none
    | some (ty2, s2) =>
      match occurs fuel s2 point ty2 with
      | none => none
      | some (true, _) => some (.error (.occursCheck ty2))
      | some (false, s3) =>
        match ufSet fuel s3.ts point (Desc.bound ty2) with
        | none => none
        | some ts2 => some (.ok { s3 with ts := ts2 })

/-- Embedding of unify_rows in solver.rs: identical points are done; two
flex rows union with merged marks; a flex row against a non-flex
descriptor goes through the occurs check and adopts it; two extensions
are flattened by gather_fields and handed to unify_record_structure. -/
def unify_rows : Nat → SolverState → Nat → Nat →
    Option (Except TypeError SolverState)
  | 0, _, _, _ => none
  | fuel+1, s, r1, r2 =>
    if r1 = r2 then some (.ok s)
    else
      match getRow fuel s r1 with
      | none => none
      | some (desc1, s1) =>
        match getRow fuel s1 r2 with
        | none => none
        | some (desc2, s2) =>
          match desc1, desc2 with
          | .rowFlex mark1, .rowFlex mark2 =>
            match ufUnion fuel s2.rs r1 r2
                (RowDesc.rowFlex (merge_marks mark1 mark2)) with
            | none => none
            | some rs2 => some (.ok { s2 with rs := rs2 })
          | .rowFlex _, desc => rowFlexCase fuel s2 r1 r2 desc
          | desc, .rowFlex _ => rowFlexCase fuel s2 r1 r2 desc
          | .rowExtend _ _, .rowExtend _ _ =>
            match gather_fields fuel s2 [] r1 with
            | none => none
            | some ((fields1, ext1), s3) =>
              match gather_fields fuel s3 [] r2 with
              | none => none
              | some ((fields2, ext2), s4) =>
                unify_record_structure fuel s4 fields1 ext1 fields2 ext2

termination_by structural fuel _ _ _ => fuel

/-- The shared-field loop of unify_record_structure: walk fields1, unify
fields present in unique2 (removing them), and collect the rest into
unique1. -/
def urs_fields : Nat → SolverState → List (String × Ty) →
    List (String × Ty) → List (String × Ty) →
    Option (Except TypeError
      (List (String × Ty) × List (String × Ty) × SolverState))
  | 0, _, _, _, _ => none
  | _+1, s, [], unique1, unique2 => some (.ok (unique1, unique2, s))
  | fuel+1, s, (name, ty1) :: rest, unique1, unique2 =>
    match alookup name unique2 with
    | some ty2 =>
      match unify fuel s ty1 ty2 with
      | none => none
      | some (.error e) => some (.error e)
      | some (.ok s2) =>
        urs_fields fuel s2 rest unique1 (btRemove name unique2)
    | none => urs_fields fuel s rest (btInsert name ty1 unique1) unique2

termination_by structural fuel _ _ _ _ => fuel

/-- Embedding of unify_record_structure in solver.rs: unify shared fields
pairwise, then dispatch on which unique sets are empty, allocating a fresh
flex point E in the doubly-unique case. -/
def unify_record_structure : Nat → SolverState →
    List (String × Ty) → Nat → List (String × Ty) → Nat →
    Option (Except TypeError SolverState)
  | 0, _, _, _, _, _ => none
  | fuel+1, s, fields1, ext1, fields2, ext2 =>
    match urs_fields fuel s fields1 [] fields2 with
    | none => none
    | some (.error e) => some (.error e)
    | some (.ok (unique1, unique2, s2)) =>
      if unique1.isEmpty then
        if unique2.isEmpty then unify_rows fuel s2 ext1 ext2
        else
          match fresh_row_extend s2 unique2 ext2 with
          | (subRecord, s3) => unify_rows fuel s3 ext1 subRecord
      else if unique2.isEmpty then
        match fresh_row_extend s2 unique1 ext1 with
        | (subRecord, s3) => unify_rows fuel s3 subRecord ext2
      else
        match fresh_row_point s2 with
        | (ext, s3) =>
          match fresh_row_extend s3 unique1 ext with
          | (sub1, s4) =>
            match fresh_row_extend s4 unique2 ext with
            | (sub2, s5) =>
              match unify_rows fuel s5 ext1 sub2 with
              | none => none
              | some (.error e) => some (.error e)
              | some (.ok s6) => unify_rows fuel s6 sub1 ext2

termination_by structural fuel _ _ _ _ _ => fuel

/-- The per-key row unification loop of unify on discriminated unions. -/
def unifyDU : Nat → SolverState → List (String × Nat) →
    List (String × Nat) → Option (Except TypeError SolverState)
  | 0, _, _, _ => none
  | _+1, s, [], _ => some (.ok s)
  | fuel+1, s, (k, rp1) :: rest, m2 =>
    match alookup k m2 with
    | none => none
    | some rp2 =>
      match unify_rows fuel s rp1 rp2 with
      | none => none
      | some (.error e) => some (.error e)
      | some (.ok s2) => unifyDU fuel s2 rest m2
termination_by structural fuel _ _ _ => fuel

end

/-! Helper lemmas about field-map or-insertion, used for the gather_fields
shadowing property. -/

theorem btInsert_alookup_ne (k k2 : String) (v2 : Ty)
    (m : List (String × Ty)) (h : k2 ≠ k) :
    alookup k (btInsert k2 v2 m) = alookup k m := by
  induction m with
  | nil => simp [btInsert, alookup, h]
  | cons kv rest ih =>
    obtain ⟨k3, v3⟩ := kv
    by_cases h1 : k2 = k3
    · subst h1
      simp [btInsert, alookup, h]
    · by_cases h2 : charListLe k2.data k3.data = true
      · simp [btInsert, h1, h2, alookup, h]
      · simp [btInsert, h1, h2, alookup, ih]

theorem alookup_btOrInsert (k k2 : String) (v v2 : Ty)
    (m : List (String × Ty)) (h : alookup k m = some v) :
    alookup k (btOrInsert k2 v2 m) = some v := by
  unfold btOrInsert
  cases h2 : alookup k2 m with
  | some _ => exact h
  | none =>
    have hne : k2 ≠ k := by
      intro he
      subst he
      rw [h] at h2
      cases h2
    rw [btInsert_alookup_ne _ _ _ _ hne]
    exact h

theorem alookup_orInsertAll (k : String) (v : Ty) :
    ∀ (sub acc : List (String × Ty)), alookup k acc = some v →
      alookup k (orInsertAll acc sub) = some v := by
  intro sub
  induction sub with
  | nil =>
    intro acc h
    exact h
  | cons kv rest ih =>
    intro acc h
    obtain ⟨k2, v2⟩ := kv
    show alookup k (orInsertAll (btOrInsert k2 v2 acc) rest) = some v
    exact ih _ (alookup_btOrInsert _ _ _ _ _ h)

/-! Concrete stores for the row-polymorphism example of the specification:
two records with one field each over distinct flex tails, with the primitive
type names and tail marks left arbitrary. -/

/-- Initial row store: point 0 is the row of the first record,
(a: n1 | tail 1), and point 2 the row of the second, (b: n2 | tail 3). -/
def c1Init (n1 n2 : String) (m1 m2 : FlexMark) : SolverState :=
  ⟨[], [UFNode.info 0 (RowDesc.rowExtend [("a", Ty.prim n1)] 1),
        UFNode.info 0 (RowDesc.rowFlex m1),
        UFNode.info 0 (RowDesc.rowExtend [("b", Ty.prim n2)] 3),
        UFNode.info 0 (RowDesc.rowFlex m2)]⟩

/-- The store after canonicalising the first record (fresh copy at 4). -/
def c1A (n1 n2 : String) (m1 m2 : FlexMark) : SolverState :=
  ⟨[], [UFNode.info 0 (RowDesc.rowExtend [("a", Ty.prim n1)] 1),
        UFNode.info 0 (RowDesc.rowFlex m1),
        UFNode.info 0 (RowDesc.rowExtend [("b", Ty.prim n2)] 3),
        UFNode.info 0 (RowDesc.rowFlex m2),
        UFNode.info 0 (RowDesc.rowExtend [("a", Ty.prim n1)] 1)]⟩

/-- The store after canonicalising both records (fresh copies at 4, 5). -/
def c1Mid (n1 n2 : String) (m1 m2 : FlexMark) : SolverState :=
  ⟨[], [UFNode.info 0 (RowDesc.rowExtend [("a", Ty.prim n1)] 1),
        UFNode.info 0 (RowDesc.rowFlex m1),
        UFNode.info 0 (RowDesc.rowExtend [("b", Ty.prim n2)] 3),
        UFNode.info 0 (RowDesc.rowFlex m2),
        UFNode.info 0 (RowDesc.rowExtend [("a", Ty.prim n1)] 1),
        UFNode.info 0 (RowDesc.rowExtend [("b", Ty.prim n2)] 3)]⟩

/-- The final store: E is the fresh flex point 6, tail 1 was unioned with
the fresh row (b: n2 | 6) at point 8 and tail 3 with (a: n1 | 6) at point 7,
so both original rows now flatten to both fields over the shared tail 6. -/
def c1Fin (n1 n2 : String) : SolverState :=
  ⟨[], [UFNode.info 0 (RowDesc.rowExtend [("a", Ty.prim n1)] 1),
        UFNode.info 1 (RowDesc.rowExtend [("b", Ty.prim n2)] 6),
        UFNode.info 0 (RowDesc.rowExtend [("b", Ty.prim n2)] 3),
        UFNode.link 7,
        UFNode.info 0 (RowDesc.rowExtend [("a", Ty.prim n1)] 1),
        UFNode.info 0 (RowDesc.rowExtend [("b", Ty.prim n2)] 3),
        UFNode.info 0 (RowDesc.rowFlex (FlexMark.fresh 6)),
        UFNode.info 1 (RowDesc.rowExtend [("a", Ty.prim n1)] 6),
        UFNode.link 1]⟩

/-- Two records sharing field a at the same primitive type, over distinct
flex tails. -/
def c1ShareOk : SolverState :=
  ⟨[], [UFNode.info 0 (RowDesc.rowExtend [("a", Ty.prim "number")] 1),
        UFNode.info 0 (RowDesc.rowFlex (FlexMark.fresh 101)),
        UFNode.info 0 (RowDesc.rowExtend [("a", Ty.prim "number")] 3),
        UFNode.info 0 (RowDesc.rowFlex (FlexMark.fresh 102))]⟩

/-- Final store for c1ShareOk: both unique sets were empty, so the two
tails 1 and 3 were unioned directly (3 links to 1, marks merged). -/
def c1ShareOkFin : SolverState :=
  ⟨[], [UFNode.info 0 (RowDesc.rowExtend [("a", Ty.prim "number")] 1),
        UFNode.info 1 (RowDesc.rowFlex (FlexMark.fresh 101)),
        UFNode.info 0 (RowDesc.rowExtend [("a", Ty.prim "number")] 3),
        UFNode.link 1,
        UFNode.info 0 (RowDesc.rowExtend [("a", Ty.prim "number")] 1),
        UFNode.info 0 (RowDesc.rowExtend [("a", Ty.prim "number")] 3)]⟩

/-- Two records sharing field a at different primitive types. -/
def c1ShareBad : SolverState :=
  ⟨[], [UFNode.info 0 (RowDesc.rowExtend [("a", Ty.prim "number")] 1),
        UFNode.info 0 (RowDesc.rowFlex (FlexMark.fresh 101)),
        UFNode.info 0 (RowDesc.rowExtend [("a", Ty.prim "string")] 3),
        UFNode.info 0 (RowDesc.rowFlex (FlexMark.fresh 102))]⟩

/-- A record (a | tail 1) against a wider record (a, b | tail 3): only the
second side has a unique field. -/
def c1OneEmpty : SolverState :=
  ⟨[], [UFNode.info 0 (RowDesc.rowExtend [("a", Ty.prim "number")] 1),
        UFNode.info 0 (RowDesc.rowFlex (FlexMark.fresh 101)),
        UFNode.info 0 (RowDesc.rowExtend
          [("a", Ty.prim "number"), ("b", Ty.prim "string")] 3),
        UFNode.info 0 (RowDesc.rowFlex (FlexMark.fresh 102))]⟩

/-- Final store for c1OneEmpty: tail 1 adopted the fresh sub-record
(b | tail 3) allocated at point 6. -/
def c1OneEmptyFin : SolverState :=
  ⟨[], [UFNode.info 0 (RowDesc.rowExtend [("a", Ty.prim "number")] 1),
        UFNode.info 1 (RowDesc.rowExtend [("b", Ty.prim "string")] 3),
        UFNode.info 0 (RowDesc.rowExtend
          [("a", Ty.prim "number"), ("b", Ty.prim "string")] 3),
        UFNode.info 0 (RowDesc.rowFlex (FlexMark.fresh 102)),
        UFNode.info 0 (RowDesc.rowExtend [("a", Ty.prim "number")] 1),
        UFNode.info 0 (RowDesc.rowExtend
          [("a", Ty.prim "number"), ("b", Ty.prim "string")] 3),
        UFNode.link 1]⟩

set_option maxHeartbeats 1600000 in
/-- C1: unifying two Record rows that are both RowExtend flattens each
chain with gather_fields, where fields already collected (outer) shadow
duplicate keys found deeper in the chain; shared fields are unified
pairwise by urs_fields, and unify_record_structure then dispatches on the
unique-field sets: both empty unifies tail1 with tail2; exactly one empty
unifies that tail against a fresh extension of the other side's unique
fields over the other side's tail; both nonempty allocates one fresh flex
point E and unifies tail1 with (unique2 | E) and (unique1 | E) with tail2.
In particular, unifying two records (a: n1 | rho1) and (b: n2 | rho2)
succeeds and afterwards both rows flatten to both fields over one and the
same tail; sharing a field at equal primitive types succeeds by unioning
the tails, and sharing it at different primitive types fails with the
pairwise field unification. -/
theorem claim_c1_record_row_unification :
    (∀ (fuel : Nat) (s s2 : SolverState)
        (acc fieldsOut : List (String × Ty)) (r tailOut : Nat),
      gather_fields fuel s acc r = some ((fieldsOut, tailOut), s2) →
      ∀ (k : String) (v : Ty), alookup k acc = some v →
        alookup k fieldsOut = some v) ∧
    (∀ (fuel : Nat) (s s2 : SolverState)
        (fields1 fields2 unique1 unique2 : List (String × Ty))
        (ext1 ext2 : Nat),
      urs_fields fuel s fields1 [] fields2
          = some (Except.ok (unique1, unique2, s2)) →
      (unique1 = [] → unique2 = [] →
        unify_record_structure (fuel+1) s fields1 ext1 fields2 ext2
          = unify_rows fuel s2 ext1 ext2) ∧
      (unique1 = [] → unique2 ≠ [] →
        ∃ (subRecord : Nat) (s3 : SolverState),
          fresh_row_extend s2 unique2 ext2 = (subRecord, s3) ∧
          unify_record_structure (fuel+1) s fields1 ext1 fields2 ext2
            = unify_rows fuel s3 ext1 subRecord) ∧
      (unique1 ≠ [] → unique2 = [] →
        ∃ (subRecord : Nat) (s3 : SolverState),
          fresh_row_extend s2 unique1 ext1 = (subRecord, s3) ∧
          unify_record_structure (fuel+1) s fields1 ext1 fields2 ext2
            = unify_rows fuel s3 subRecord ext2) ∧
      (unique1 ≠ [] → unique2 ≠ [] →
        ∃ (ext sub1 sub2 : Nat) (s3 s4 s5 : SolverState),
          fresh_row_point s2 = (ext, s3) ∧
          fresh_row_extend s3 unique1 ext = (sub1, s4) ∧
          fresh_row_extend s4 unique2 ext = (sub2, s5) ∧
          unify_record_structure (fuel+1) s fields1 ext1 fields2 ext2
            = (match unify_rows fuel s5 ext1 sub2 with
               | none => none
               | some (Except.error e) => some (Except.error e)
               | some (Except.ok s6) => unify_rows fuel s6 sub1 ext2))) ∧
    (∀ (n1 n2 : String) (m1 m2 : FlexMark),
      unify 16 (c1Init n1 n2 m1 m2) (Ty.record 0) (Ty.record 2)
        = some (Except.ok (c1Fin n1 n2)) ∧
      gather_fields 16 (c1Fin n1 n2) [] 0
        = some (([("a", Ty.prim n1), ("b", Ty.prim n2)], 6), c1Fin n1 n2) ∧
      gather_fields 16 (c1Fin n1 n2) [] 2
        = some (([("a", Ty.prim n1), ("b", Ty.prim n2)], 6), c1Fin n1 n2)) ∧
    (unify 16 c1ShareOk (Ty.record 0) (Ty.record 2)
      = some (Except.ok c1ShareOkFin)) ∧
    (unify 16 c1ShareBad (Ty.record 0) (Ty.record 2)
      = some (Except.error (TypeError.primMismatch "string" "number"))) ∧
    (unify 16 c1OneEmpty (Ty.record 0) (Ty.record 2)
      = some (Except.ok c1OneEmptyFin)) := by
  refine ⟨?_, ?_, ?_, ?_, ?_, ?_⟩
  · intro fuel
    induction fuel with
    | zero =>
      intro s s2 acc fieldsOut r tailOut h
      cases h
    | succ fuel ih =>
      intro s s2 acc fieldsOut r tailOut h k v hacc
      rw [gather_fields] at h
      cases hg : getRow fuel s r with
      | none =>
        rw [hg] at h
        cases h
      | some res =>
        obtain ⟨desc, sg⟩ := res
        cases desc with
        | rowExtend subFields subExt =>
          simp only [hg] at h
          exact ih _ _ _ _ _ _ h k v
            (alookup_orInsertAll k v subFields acc hacc)
        | rowFlex m =>
          simp only [hg, Option.some.injEq, Prod.mk.injEq] at h
          obtain ⟨⟨hf, ht⟩, hs⟩ := h
          subst hf
          exact hacc
  · intro fuel s s2 fields1 fields2 unique1 unique2 ext1 ext2 hurs
    refine ⟨?_, ?_, ?_, ?_⟩
    · intro h1 h2
      subst h1
      subst h2
      simp only [unify_record_structure, hurs, List.isEmpty_nil, if_true]
    · intro h1 h2
      subst h1
      refine ⟨_, _, rfl, ?_⟩
      cases unique2 with
      | nil => exact absurd rfl h2
      | cons b bt =>
        simp only [unify_record_structure, hurs, List.isEmpty_nil,
          List.isEmpty_cons, if_true, Bool.false_eq_true, if_false]
        rfl
    · intro h1 h2
      subst h2
      refine ⟨_, _, rfl, ?_⟩
      cases unique1 with
      | nil => exact absurd rfl h1
      | cons b bt =>
        simp only [unify_record_structure, hurs, List.isEmpty_nil,
          List.isEmpty_cons, if_true, Bool.false_eq_true, if_false]
        rfl
    · intro h1 h2
      refine ⟨_, _, _, _, _, _, rfl, rfl, rfl, ?_⟩
      cases unique1 with
      | nil => exact absurd rfl h1
      | cons b bt =>
        cases unique2 with
        | nil => exact absurd rfl h2
        | cons c ct =>
          simp only [unify_record_structure, hurs, List.isEmpty_cons,
            Bool.false_eq_true, if_false]
          rfl
  · intro n1 n2 m1 m2
    have h1 : canonicalType 15 (c1Init n1 n2 m1 m2) (Ty.record 0)
        = some (Ty.record 4, c1A n1 n2 m1 m2) := rfl
    have h2 : canonicalType 15 (c1A n1 n2 m1 m2) (Ty.record 2)
        = some (Ty.record 5, c1Mid n1 n2 m1 m2) := rfl
    have h3 : unify_rows 15 (c1Mid n1 n2 m1 m2) 4 5
        = some (Except.ok (c1Fin n1 n2)) := rfl
    refine ⟨?_, rfl, rfl⟩
    show unify (15+1) (c1Init n1 n2 m1 m2) (Ty.record 0) (Ty.record 2)
      = some (Except.ok (c1Fin n1 n2))
    rw [unify]
    simp only [h1, h2]
    exact h3
  · rfl
  · rfl
  · rfl

/-- Witness for C1: the shadowing property applied to a gather over a
chain whose inner extension repeats key a (the outer value survives); the
one-side-unique dispatch branch at a concrete store; and the row
polymorphism example at the concrete primitive types of the
specification. -/
theorem claim_c1_record_row_unification_witness :
    (alookup "a" [("a", Ty.prim "outer"), ("b", Ty.prim "keep"),
        ("c", Ty.prim "new")] = some (Ty.prim "outer")) ∧
    (∃ (subRecord : Nat) (s3 : SolverState),
      fresh_row_extend (⟨[], []⟩ : SolverState) [("a", Ty.prim "t")] 5
          = (subRecord, s3) ∧
      unify_record_structure 3 ⟨[], []⟩ [("a", Ty.prim "t")] 5 [] 7
        = unify_rows 2 s3 subRecord 7) ∧
    (unify 16 (c1Init "number" "string" (FlexMark.fresh 0) (FlexMark.fresh 1))
        (Ty.record 0) (Ty.record 2)
      = some (Except.ok (c1Fin "number" "string"))) := by
  refine ⟨?_, ?_, ?_⟩
  · exact claim_c1_record_row_unification.1 4
      ⟨[], [UFNode.info 0 (RowDesc.rowExtend
              [("a", Ty.prim "inner"), ("c", Ty.prim "new")] 1),
            UFNode.info 0 (RowDesc.rowFlex (FlexMark.fresh 9))]⟩
      ⟨[], [UFNode.info 0 (RowDesc.rowExtend
              [("a", Ty.prim "inner"), ("c", Ty.prim "new")] 1),
            UFNode.info 0 (RowDesc.rowFlex (FlexMark.fresh 9))]⟩
      [("a", Ty.prim "outer"), ("b", Ty.prim "keep")]
      [("a", Ty.prim "outer"), ("b", Ty.prim "keep"), ("c", Ty.prim "new")]
      0 1 rfl "a" (Ty.prim "outer") rfl
  · exact (claim_c1_record_row_unification.2.1 2 ⟨[], []⟩ ⟨[], []⟩
      [("a", Ty.prim "t")] [] [("a", Ty.prim "t")] [] 5 7 rfl).2.2.1
      (List.cons_ne_nil _ _) rfl
  · exact (claim_c1_record_row_unification.2.2.1 "number" "string"
      (FlexMark.fresh 0) (FlexMark.fresh 1)).1

/-- C2: when row unification pairs a RowFlex point with a RowExtend
descriptor (in either orientation), it dispatches to the occurs-check
branch: the row-occurs check is run on both points against the non-flex
descriptor (so in particular on the flex point); if a check reports an
occurrence the result is the RowMismatch error "occurs check failed", and
only when both checks pass are the two points unioned, the union root
adopting the non-flex RowExtend descriptor.  Moreover the check really
searches row tails (a tail equal to the searched point reports true) and
Record types nested in field types (a record on the searched point itself
reports true). -/
theorem claim_c2_row_occurs_check
    (fuel : Nat) (s s1 s2 : SolverState) (r1 r2 : Nat) (m : FlexMark)
    (fields : List (String × Ty)) (tail : Nat)
    (hne : r1 ≠ r2)
    (horient : (getRow (fuel+1) s r1 = some (RowDesc.rowFlex m, s1) ∧
        getRow (fuel+1) s1 r2 = some (RowDesc.rowExtend fields tail, s2)) ∨
      (getRow (fuel+1) s r1 = some (RowDesc.rowExtend fields tail, s1) ∧
        getRow (fuel+1) s1 r2 = some (RowDesc.rowFlex m, s2))) :
    (∀ s3 : SolverState,
      occurs_row_check fuel s2 r1 (RowDesc.rowExtend fields tail)
          = some (true, s3) →
      unify_rows (fuel+1+1) s r1 r2
        = some (Except.error (TypeError.rowMismatch "occurs check failed"))) ∧
    (∀ s3 s4 : SolverState,
      occurs_row_check fuel s2 r1 (RowDesc.rowExtend fields tail)
          = some (false, s3) →
      occurs_row_check fuel s3 r2 (RowDesc.rowExtend fields tail)
          = some (true, s4) →
      unify_rows (fuel+1+1) s r1 r2
        = some (Except.error (TypeError.rowMismatch "occurs check failed"))) ∧
    (∀ (s3 s4 : SolverState) (rs5 : UFStore RowDesc),
      occurs_row_check fuel s2 r1 (RowDesc.rowExtend fields tail)
          = some (false, s3) →
      occurs_row_check fuel s3 r2 (RowDesc.rowExtend fields tail)
          = some (false, s4) →
      ufUnion fuel s4.rs r1 r2 (RowDesc.rowExtend fields tail)
          = some rs5 →
      unify_rows (fuel+1+1) s r1 r2 = some (Except.ok { s4 with rs := rs5 }) ∧
      ∃ rt rk : Nat,
        rs5[rt]? = some (UFNode.info rk (RowDesc.rowExtend fields tail)) ∧
        nearRoot rs5 r1 rt ∧ nearRoot rs5 r2 rt) ∧
    (∀ (s0 s3 : SolverState) (rp : Nat) (flds : List (String × Ty)),
      occursRowFields fuel s0 rp flds = some (false, s3) →
      occurs_row_check (fuel+1) s0 rp (RowDesc.rowExtend flds rp)
        = some (true, s3)) ∧
    (∀ (s0 : SolverState) (rp : Nat),
      occurs_in_row_type (fuel+1) s0 rp (Ty.record rp) = some (true, s0)) := by
  have hdispatch : unify_rows (fuel+1+1) s r1 r2
      = rowFlexCase (fuel+1) s2 r1 r2 (RowDesc.rowExtend fields tail) := by
    rcases horient with ⟨hg1, hg2⟩ | ⟨hg1, hg2⟩
    · simp only [unify_rows, if_neg hne, hg1, hg2]
    · simp only [unify_rows, if_neg hne, hg1, hg2]
  refine ⟨?_, ?_, ?_, ?_, ?_⟩
  · intro s3 hocc
    rw [hdispatch]
    simp only [rowFlexCase, hocc]
  · intro s3 s4 hocc1 hocc2
    rw [hdispatch]
    simp only [rowFlexCase, hocc1, hocc2]
  · intro s3 s4 rs5 hocc1 hocc2 hu
    refine ⟨?_, ufUnion_shape _ _ _ _ _ _ hu⟩
    rw [hdispatch]
    simp only [rowFlexCase, hocc1, hocc2, hu]
  · intro s0 s3 rp flds hflds
    simp [occurs_row_check, hflds]
  · intro s0 rp
    simp [occurs_in_row_type]

/-- Row store where the flex point 0 occurs inside the field type
(x: Record of point 0) of the extension at point 1: the occurs check must
fail. -/
def c2Bad : SolverState :=
  ⟨[], [UFNode.info 0 (RowDesc.rowFlex (FlexMark.fresh 0)),
        UFNode.info 0 (RowDesc.rowExtend [("x", Ty.record 0)] 2),
        UFNode.info 0 (RowDesc.rowFlex (FlexMark.fresh 1))]⟩

/-- Row store where the extension at point 1 does not mention the flex
point 0: the occurs check passes and the union adopts the descriptor. -/
def c2Good : SolverState :=
  ⟨[], [UFNode.info 0 (RowDesc.rowFlex (FlexMark.fresh 0)),
        UFNode.info 0 (RowDesc.rowExtend [("x", Ty.prim "number")] 2),
        UFNode.info 0 (RowDesc.rowFlex (FlexMark.fresh 1))]⟩

/-- Union result for c2Good: 1 links under root 0, which adopts the
RowExtend descriptor. -/
def c2GoodFin : UFStore RowDesc :=
  [UFNode.info 1 (RowDesc.rowExtend [("x", Ty.prim "number")] 2),
   UFNode.link 0,
   UFNode.info 0 (RowDesc.rowFlex (FlexMark.fresh 1))]

/-- Witness for C2: on c2Bad the flex point 0 occurs in a Record nested in
a field type of the descriptor of point 1 and row unification fails with
RowMismatch; on c2Good the checks pass, the union succeeds, point 0 is the
root carrying the RowExtend descriptor and both points sit in its class;
and the two occurrence shapes (self tail, nested record) fire. -/
theorem claim_c2_row_occurs_check_witness :
    (unify_rows 8 c2Bad 0 1
      = some (Except.error (TypeError.rowMismatch "occurs check failed"))) ∧
    (unify_rows 8 c2Good 0 1 = some (Except.ok ⟨[], c2GoodFin⟩) ∧
      ∃ rt rk : Nat,
        c2GoodFin[rt]? = some (UFNode.info rk
          (RowDesc.rowExtend [("x", Ty.prim "number")] 2)) ∧
        nearRoot c2GoodFin 0 rt ∧ nearRoot c2GoodFin 1 rt) ∧
    (occurs_row_check 7 c2Good 2 (RowDesc.rowExtend [] 2)
      = some (true, c2Good)) ∧
    (occurs_in_row_type 7 c2Good 5 (Ty.record 5) = some (true, c2Good)) := by
  refine ⟨?_, ?_, ?_, ?_⟩
  · exact (claim_c2_row_occurs_check 6 c2Bad c2Bad c2Bad 0 1
      (FlexMark.fresh 0) [("x", Ty.record 0)] 2 (by decide)
      (Or.inl ⟨rfl, rfl⟩)).1 c2Bad rfl
  · exact (claim_c2_row_occurs_check 6 c2Good c2Good c2Good 0 1
      (FlexMark.fresh 0) [("x", Ty.prim "number")] 2 (by decide)
      (Or.inl ⟨rfl, rfl⟩)).2.2.1 c2Good c2Good c2GoodFin rfl rfl rfl
  · exact (claim_c2_row_occurs_check 6 c2Good c2Good c2Good 0 1
      (FlexMark.fresh 0) [("x", Ty.prim "number")] 2 (by decide)
      (Or.inl ⟨rfl, rfl⟩)).2.2.2.1 c2Good c2Good 2 [] rfl
  · exact (claim_c2_row_occurs_check 6 c2Good c2Good c2Good 0 1
      (FlexMark.fresh 0) [("x", Ty.prim "number")] 2 (by decide)
      (Or.inl ⟨rfl, rfl⟩)).2.2.2.2 c2Good 5

end Vegen
